import Mathlib

/-!
# UPSC PrepHub: the gamification core of `server.js`

A shallow embedding of the scoring helpers (`calcXP`, `calcLevel`, `calcStreak`,
`getBadges`, `getRank`, `xpForNextLevel`, `xpForCurrentLevel`), of the quiz
recorder `POST /api/quiz-history` and of the dashboard `GET /api/stats/:email`.

Conventions of the embedding.

* Integer-valued JavaScript numbers (`xp`, `level`, `streak`, `score`, `total`,
  millisecond timestamps) are `Int`; their sums and differences are exact in
  binary64 as long as they stay below `2 ^ 53` in magnitude, and are taken as
  exact here.
* The two places where the source leaves the integers, `score / total * 100`
  and `(now - last) / 86400000`, are computed in binary64 with round to
  nearest, ties to even (`Dbl`).
* A handler is a function of the request, of the clock readings it takes and
  of the record `User.findOne` returned; it yields the reply together with the
  record as stored afterwards.
-/

namespace PrepHub

/-! ## Binary64 arithmetic -/

/-- A binary64 value, standing for the number `man * 2 ^ exp`. The exponent is
not bounded: the operands met here are integers below `2 ^ 53`, whose quotients
stay far inside the normal range of binary64. -/
structure Dbl where
  man : Int
  exp : Int
deriving DecidableEq, Repr

/-- Halving `n` until it drops below 2, at most `fuel` times: the number of
halvings. -/
def log2Fuel : Nat → Nat → Nat
  | 0, _ => 0
  | fuel + 1, n => if n < 2 then 0 else log2Fuel fuel (n / 2) + 1

/-- Floor of the base-2 logarithm of a positive natural number. -/
def log2 (n : Nat) : Nat := log2Fuel n n

/-- Floor of the base-2 logarithm of the fraction `n / d`, for positive `n`, `d`. -/
def ilog2 (n d : Nat) : Int :=
  let k : Int := (log2 n : Int) - (log2 d : Int)
  if n * 2 ^ (-k).toNat < d * 2 ^ k.toNat then k - 1 else k

/-- The integer nearest to `n / d`, a tie going to the even neighbour. -/
def roundHalfEven (n d : Nat) : Nat :=
  let q := n / d
  let r := n % d
  if 2 * r < d then q
  else if d < 2 * r then q + 1
  else if q % 2 = 0 then q else q + 1

/-- The binary64 value nearest to the fraction `n / d`: a 53-bit significand,
round to nearest, ties to even. -/
def Dbl.ofFrac (n : Int) (d : Nat) : Dbl :=
  if n = 0 then ⟨0, 0⟩
  else
    let a := n.natAbs
    let e := ilog2 a d - 52
    let m := roundHalfEven (a * 2 ^ (-e).toNat) (d * 2 ^ e.toNat)
    ⟨Int.sign n * (m : Int), e⟩

/-- The binary64 quotient `a / b` of two integers, `b` nonzero. -/
def Dbl.div (a b : Int) : Dbl :=
  Dbl.ofFrac (a * Int.sign b) b.natAbs

/-- The binary64 product `x * k` of a binary64 value and an integer. -/
def Dbl.mulInt (x : Dbl) (k : Int) : Dbl :=
  Dbl.ofFrac (x.man * k * 2 ^ x.exp.toNat) (2 ^ (-x.exp).toNat)

/-- JavaScript `Math.floor`: the greatest integer not above `x`. -/
def Dbl.floor (x : Dbl) : Int :=
  (x.man * 2 ^ x.exp.toNat) / (2 ^ (-x.exp).toNat : Int)

/-- JavaScript `Math.round`: the integer nearest to `x`, a tie going up, that is
`floor (x + 1/2)`. -/
def Dbl.round (x : Dbl) : Int :=
  (2 * (x.man * 2 ^ x.exp.toNat) + 2 ^ (-x.exp).toNat) / (2 * 2 ^ (-x.exp).toNat : Int)

/-- The rational number a binary64 value stands for. -/
def Dbl.toRat (x : Dbl) : ℚ :=
  (x.man : ℚ) * (2 : ℚ) ^ x.exp

/-! ## Data model (`models/User.js`) -/

/-- One element of `quizHistory` (`quizResultSchema`); `date` in milliseconds. -/
structure QuizAttempt where
  subject : String
  score : Int
  total : Int
  percentage : Int
  xpEarned : Int
  date : Int
deriving DecidableEq, Repr

/-- A user document (`userSchema`); `lastQuizDate` is `null` until the first quiz. -/
structure User where
  name : String
  email : String
  password : String
  quizHistory : List QuizAttempt
  xp : Int
  level : Int
  streak : Int
  lastQuizDate : Option Int
  createdAt : Int
deriving DecidableEq, Repr

/-- The document `new User` builds from name, email and password hash: every
other field takes its schema default. -/
def User.register (name email password : String) (createdAt : Int) : User :=
  { name := name, email := email, password := password, quizHistory := [],
    xp := 0, level := 1, streak := 0, lastQuizDate := none, createdAt := createdAt }

/-! ## XP and level helpers -/

/-- Source function `calcXP(percentage)`. -/
def calcXP (percentage : Int) : Int :=
  if percentage ≥ 80 then 100
  else if percentage ≥ 60 then 70
  else if percentage ≥ 40 then 40
  else 20

/-- The level thresholds of `calcLevel`, `xpForNextLevel` and `xpForCurrentLevel`. -/
def thresholds : List Int := [0, 200, 500, 1000, 2000, 3500, 5500, 8000, 11000, 15000]

/-- The loop of `calcLevel` with `n` indices left to visit: it looks at index
`n - 1` next, and falls through to the initial `level = 1` when none is left. -/
def calcLevelLoop (totalXP : Int) : Nat → Int
  | 0 => 1
  | i + 1 => if totalXP ≥ thresholds.getD i 0 then (i : Int) + 1 else calcLevelLoop totalXP i

/-- Source function `calcLevel(totalXP)`: the loop started at `i = thresholds.length - 1`. -/
def calcLevel (totalXP : Int) : Int :=
  calcLevelLoop totalXP thresholds.length

/-- Source function `calcStreak(lastQuizDate, currentStreak)`, the reading of the clock taken by
`new Date()` passed as `now`. A `Date` object is always truthy, so the first
test holds exactly for `null`. -/
def calcStreak (now : Int) (lastQuizDate : Option Int) (currentStreak : Int) : Int :=
  match lastQuizDate with
  | none => 1
  | some last =>
    let diffDays := (Dbl.div (now - last) (1000 * 60 * 60 * 24)).floor
    if diffDays = 0 then currentStreak
    else if diffDays = 1 then currentStreak + 1
    else 1

/-! ## Badges, rank and level bounds -/

/-- A badge object as pushed by `getBadges`. -/
structure Badge where
  id : String
  icon : String
  name : String
  desc : String
deriving DecidableEq, Repr

/-- The expression `[...new Set(xs)]`: the distinct strings of `xs`, in order of first
appearance (a `Set` compares strings by exact equality). -/
def distinct (xs : List String) : List String :=
  xs.foldl (fun seen x => if x ∈ seen then seen else seen ++ [x]) []

/-- The statement `if (c) badges.push(b)`: the array afterwards. -/
def pushIf (c : Bool) (b : Badge) (badges : List Badge) : List Badge :=
  if c then badges ++ [b] else badges

/-- Source function `getBadges(user)`: ten tests in a fixed order, each pushing its badge. -/
def getBadges (user : User) : List Badge :=
  let badges : List Badge := []
  let totalQuizzes := user.quizHistory.length
  let totalXP := user.xp
  let subjects := distinct (user.quizHistory.map (fun h => h.subject))
  let hasExcellent := user.quizHistory.any (fun h => decide (h.percentage ≥ 80))
  let hasPerfect := user.quizHistory.any (fun h => decide (h.percentage = 100))
  let badges := pushIf (decide (totalQuizzes ≥ 1))
    ⟨"first", "🎯", "First Quiz", "Completed your first quiz"⟩ badges
  let badges := pushIf (decide (totalQuizzes ≥ 5))
    ⟨"quizzer", "📝", "Quizzer", "5 quizzes completed"⟩ badges
  let badges := pushIf (decide (totalQuizzes ≥ 20))
    ⟨"dedicated", "💪", "Dedicated", "20 quizzes completed"⟩ badges
  let badges := pushIf hasExcellent
    ⟨"scholar", "🏆", "Scholar", "Scored 80%+ in a quiz"⟩ badges
  let badges := pushIf hasPerfect
    ⟨"perfect", "⭐", "Perfect Score", "Scored 100% in a quiz"⟩ badges
  let badges := pushIf (decide (subjects.length ≥ 3))
    ⟨"explorer", "🌍", "Explorer", "Tried 3+ subjects"⟩ badges
  let badges := pushIf (decide (subjects.length ≥ 5))
    ⟨"allrounder", "🎓", "All-Rounder", "Tried all 5 subjects"⟩ badges
  let badges := pushIf (decide (user.streak ≥ 3))
    ⟨"streak3", "🔥", "On Fire", "3-day streak"⟩ badges
  let badges := pushIf (decide (user.streak ≥ 7))
    ⟨"streak7", "⚡", "Lightning", "7-day streak"⟩ badges
  let badges := pushIf (decide (totalXP ≥ 1000))
    ⟨"xp1k", "💎", "Diamond Mind", "1000+ XP earned"⟩ badges
  badges

/-- A rank object as returned by `getRank`. -/
structure Rank where
  name : String
  color : String
  icon : String
deriving DecidableEq, Repr

/-- Source function `getRank(level)`. -/
def getRank (level : Int) : Rank :=
  if level ≥ 10 then ⟨"Platinum", "#8ecae6", "💠"⟩
  else if level ≥ 7 then ⟨"Gold", "#f39c12", "🥇"⟩
  else if level ≥ 4 then ⟨"Silver", "#95a5a6", "🥈"⟩
  else ⟨"Bronze", "#cd7f32", "🥉"⟩

/-- The lookup `thresholds[i]` for an integer `i`: `undefined` (here `none`) outside `0..9`. -/
def thresholdAt (i : Int) : Option Int :=
  if i < 0 then none else thresholds[i.toNat]?

/-- The expression `v || d` for a number or `undefined` on the left: `d` when `v` is
`undefined` or `0`. -/
def orDefault (v : Option Int) (d : Int) : Int :=
  match v with
  | some x => if x = 0 then d else x
  | none => d

/-- Source function `xpForNextLevel(level)`. -/
def xpForNextLevel (level : Int) : Int :=
  orDefault (thresholdAt level) 15000

/-- Source function `xpForCurrentLevel(level)`. -/
def xpForCurrentLevel (level : Int) : Int :=
  orDefault (thresholdAt (level - 1)) 0

/-! ## `POST /api/quiz-history` -/

/-- The body of a quiz submission. A field is `none` when the body lacks it;
`email` and `subject` are strings, `score` and `total` integers. -/
structure QuizRequest where
  email : Option String
  subject : Option String
  score : Option Int
  total : Option Int
deriving DecidableEq, Repr

/-- The three readings of the clock taken while a submission is recorded:
`new Date()` inside `calcStreak`, the `Date.now` default of the pushed
attempt's `date`, and the `new Date()` assigned to `lastQuizDate`. -/
structure Clock where
  streakNow : Int
  pushNow : Int
  saveNow : Int
deriving DecidableEq, Repr

/-- The JSON body of a successful submission. -/
structure QuizResult where
  xpEarned : Int
  totalXP : Int
  level : Int
  streak : Int
  rank : Rank
  badges : List Badge
  xpForNext : Int
  xpForCurrent : Int
deriving DecidableEq, Repr

/-- The reply to a submission: status 400 (`Missing required fields.`), status
404 (`User not found.`) or status 200 with its body. -/
inductive QuizReply where
  | badRequest
  | notFound
  | saved (body : QuizResult)
deriving DecidableEq, Repr

/-- The expression `Math.round((score / total) * 100)` of the recorder. -/
def percentageOf (score total : Int) : Int :=
  ((Dbl.div score total).mulInt 100).round

/-- The handler of `POST /api/quiz-history`. `found` is what `User.findOne`
returned; the second component is the record as stored when the handler
replies. The guard `!email || !subject || score === undefined || !total`
turns away an absent or empty string and an absent or zero `total`. -/
def postQuizHistory (clock : Clock) (req : QuizRequest) (found : Option User) :
    QuizReply × Option User :=
  match req.email, req.subject, req.score, req.total with
  | some email, some subject, some score, some total =>
    if email = "" ∨ subject = "" ∨ total = 0 then (QuizReply.badRequest, found)
    else
      let percentage := percentageOf score total
      let xpEarned := calcXP percentage
      match found with
      | none => (QuizReply.notFound, none)
      | some user =>
        let newStreak := calcStreak clock.streakNow user.lastQuizDate user.streak
        let newXP := user.xp + xpEarned
        let newLevel := calcLevel newXP
        let user := { user with
          quizHistory := user.quizHistory ++
            [{ subject := subject, score := score, total := total,
               percentage := percentage, xpEarned := xpEarned, date := clock.pushNow }]
          xp := newXP
          level := newLevel
          streak := newStreak
          lastQuizDate := some clock.saveNow }
        let rank := getRank newLevel
        let badges := getBadges user
        (QuizReply.saved
          { xpEarned := xpEarned, totalXP := newXP, level := newLevel, streak := newStreak,
            rank := rank, badges := badges,
            xpForNext := xpForNextLevel newLevel,
            xpForCurrent := xpForCurrentLevel newLevel },
         some user)
  | _, _, _, _ => (QuizReply.badRequest, found)

/-- The records the running service can hold: a fresh registration, and
whatever a recorded submission makes of such a record. -/
inductive Reachable : User → Prop where
  | register (name email password : String) (createdAt : Int) :
      Reachable (User.register name email password createdAt)
  | submit {u u' : User} (clock : Clock) (req : QuizRequest) (body : QuizResult) :
      Reachable u →
      postQuizHistory clock req (some u) = (QuizReply.saved body, some u') →
      Reachable u'

/-! ## `GET /api/stats/:email` -/

/-- The call `xs.sort(cmp)`. `Array.prototype.sort` is stable, and a stable sort is
determined by its input and comparator; insertion from the right, each element
going before the first one it does not have to follow, is such a sort. -/
def sortBy (cmp : QuizAttempt → QuizAttempt → Int) (xs : List QuizAttempt) :
    List QuizAttempt :=
  xs.insertionSort (fun a b => cmp a b ≤ 0)

/-- JavaScript `Math.max(...xs)`. The callback reaches it with a non-empty list only; on
the empty list JavaScript gives `-Infinity`, for which `0` stands in here. -/
def mathMax (xs : List Int) : Int :=
  match xs with
  | [] => 0
  | x :: rest => rest.foldl max x

/-- One entry of `subjectStats`. -/
structure SubjectStat where
  attempts : Nat
  best : Int
  latest : Int
  trend : String
deriving DecidableEq, Repr

/-- The body of the `forEach` callback that fills `subjectStats[s]`. The call
`attempts.sort(...)` sorts the filtered array in place and returns it, so from
there on `attempts` and `sorted` are one array. Indexing past the end does not
occur in the second branch (`first` stands in for it). -/
def subjectStat (quizHistory : List QuizAttempt) (s : String) : SubjectStat :=
  match quizHistory.filter (fun h => decide (h.subject = s)) with
  | [] => { attempts := 0, best := 0, latest := 0, trend := "none" }
  | first :: others =>
    let sorted := sortBy (fun a b => a.date - b.date) (first :: others)
    let best := mathMax (sorted.map (fun a => a.percentage))
    let latest := (sorted.getD (sorted.length - 1) first).percentage
    let prev := if sorted.length > 1 then (sorted.getD (sorted.length - 2) first).percentage
      else latest
    let trend := if latest > prev then "up" else if latest < prev then "down" else "same"
    { attempts := sorted.length, best := best, latest := latest, trend := trend }

/-- The five subjects of the dashboard. -/
def subjects : List String := ["Geography", "History", "Polity", "Economics", "Science"]

/-- The expression
`[...quizHistory].sort((a, b) => new Date(b.date) - new Date(a.date)).slice(0, 10)`,
computed on a copy of the array. -/
def recentHistory (quizHistory : List QuizAttempt) : List QuizAttempt :=
  (sortBy (fun a b => b.date - a.date) quizHistory).take 10

/-- The JSON body of a stats reply. -/
structure StatsResult where
  name : String
  email : String
  xp : Int
  level : Int
  streak : Int
  rank : Rank
  badges : List Badge
  subjectStats : List (String × SubjectStat)
  recentHistory : List QuizAttempt
  totalQuizzes : Nat
  xpForNext : Int
  xpForCurrent : Int
deriving DecidableEq, Repr

/-- The reply to a stats request: status 404 or status 200 with its body. -/
inductive StatsReply where
  | notFound
  | ok (body : StatsResult)
deriving DecidableEq, Repr

/-- The handler of `GET /api/stats/:email`; it never saves, so the record comes
back as found. -/
def getStats (found : Option User) : StatsReply × Option User :=
  match found with
  | none => (StatsReply.notFound, none)
  | some user =>
    let level := calcLevel user.xp
    let rank := getRank level
    let badges := getBadges user
    let subjectStats := subjects.map (fun s => (s, subjectStat user.quizHistory s))
    let recent := recentHistory user.quizHistory
    (StatsReply.ok
      { name := user.name, email := user.email,
        xp := user.xp, level := level, streak := user.streak, rank := rank, badges := badges,
        subjectStats := subjectStats, recentHistory := recent,
        totalQuizzes := user.quizHistory.length,
        xpForNext := xpForNextLevel level,
        xpForCurrent := xpForCurrentLevel level },
     some user)

/-! ## Sample data -/

/-- A sample record: a user right after registration. -/
def sampleUser : User := User.register "Asha" "asha@upsc.com" "hash" 0

/-- A sample clock: all three readings at the same millisecond. -/
def sampleClock : Clock := { streakNow := 1000, pushNow := 1000, saveNow := 1000 }

/-- The sample record after a first quiz, 16 out of 20 in Geography. -/
def sampleUser1 : User :=
  { sampleUser with
    quizHistory := [⟨"Geography", 16, 20, 80, 100, 1000⟩]
    xp := 100, level := 1, streak := 1, lastQuizDate := some 1000 }

/-- The submission that leads from `sampleUser` to `sampleUser1`. -/
def sampleRequest : QuizRequest :=
  { email := some "asha@upsc.com", subject := some "Geography", score := some 16,
    total := some 20 }

/-- A record whose ten attempts are all dated after the reading 1000 of
`sampleClock` (seeded or written while the clock ran ahead). -/
def aheadUser : User :=
  { sampleUser with
    quizHistory :=
      [⟨"Polity", 10, 20, 50, 40, 2001⟩, ⟨"Polity", 10, 20, 50, 40, 2002⟩,
       ⟨"Polity", 10, 20, 50, 40, 2003⟩, ⟨"Polity", 10, 20, 50, 40, 2004⟩,
       ⟨"Polity", 10, 20, 50, 40, 2005⟩, ⟨"Polity", 10, 20, 50, 40, 2006⟩,
       ⟨"Polity", 10, 20, 50, 40, 2007⟩, ⟨"Polity", 10, 20, 50, 40, 2008⟩,
       ⟨"Polity", 10, 20, 50, 40, 2009⟩, ⟨"Polity", 10, 20, 50, 40, 2010⟩]
    xp := 400, level := 2, streak := 1, lastQuizDate := some 2010 }

/-- The body of the reply to `sampleRequest` sent for `sampleUser`. -/
def sampleBody : QuizResult :=
  { xpEarned := 100, totalXP := 100, level := 1, streak := 1,
    rank := getRank 1, badges := getBadges sampleUser1,
    xpForNext := 200, xpForCurrent := 0 }

/-- A clock one day and one second after `sampleClock`. -/
def nextDayClock : Clock := { streakNow := 86401000, pushNow := 86401000, saveNow := 86401000 }

/-- The sample record after a second quiz, taken a day after the first. -/
def sampleUser2 : User :=
  { sampleUser1 with
    quizHistory := [⟨"Geography", 16, 20, 80, 100, 1000⟩, ⟨"Geography", 16, 20, 80, 100, 86401000⟩]
    xp := 200, level := 2, streak := 2, lastQuizDate := some 86401000 }

/-- The body of the reply to `sampleRequest` sent for `sampleUser1` a day later. -/
def sampleBody2 : QuizResult :=
  { xpEarned := 100, totalXP := 200, level := 2, streak := 2,
    rank := getRank 2, badges := getBadges sampleUser2,
    xpForNext := 500, xpForCurrent := 200 }

/-! ## Sets of badges -/

/-- A subset of the ten badge ids: one flag per id. -/
structure BadgeChoice where
  first : Bool
  quizzer : Bool
  dedicated : Bool
  scholar : Bool
  perfect : Bool
  explorer : Bool
  allrounder : Bool
  streak3 : Bool
  streak7 : Bool
  xp1k : Bool
deriving DecidableEq, Repr

/-- The ids of a subset, in the order of `getBadges`. -/
def BadgeChoice.ids (c : BadgeChoice) : List String :=
  (if c.first then ["first"] else []) ++
  ((if c.quizzer then ["quizzer"] else []) ++
  ((if c.dedicated then ["dedicated"] else []) ++
  ((if c.scholar then ["scholar"] else []) ++
  ((if c.perfect then ["perfect"] else []) ++
  ((if c.explorer then ["explorer"] else []) ++
  ((if c.allrounder then ["allrounder"] else []) ++
  ((if c.streak3 then ["streak3"] else []) ++
  ((if c.streak7 then ["streak7"] else []) ++
  (if c.xp1k then ["xp1k"] else [])))))))))

/-- The implications among the badge rules: a subset that some user can hold
contains, with each badge, the badges its rule entails. -/
def BadgeChoice.Closed (c : BadgeChoice) : Prop :=
  (c.quizzer = true → c.first = true) ∧ (c.dedicated = true → c.quizzer = true) ∧
  (c.scholar = true → c.first = true) ∧ (c.perfect = true → c.scholar = true) ∧
  (c.explorer = true → c.first = true) ∧ (c.allrounder = true → c.explorer = true) ∧
  (c.allrounder = true → c.quizzer = true) ∧ (c.streak7 = true → c.streak3 = true)

/-- A history that earns exactly the history badges of a closed subset: as many
attempts as the count badges ask for, spread over as many subjects as the
subject badges ask for, the first attempt carrying the percentage the score
badges ask for. -/
def BadgeChoice.history (c : BadgeChoice) : List QuizAttempt :=
  let n := if c.dedicated then 20 else if c.quizzer then 5 else if c.explorer then 3
    else if c.first then 1 else 0
  let d := if c.allrounder then 5 else if c.explorer then 3 else 1
  let top : Int := if c.perfect then 100 else if c.scholar then 80 else 0
  (List.range n).map (fun i =>
    { subject := subjects.getD (min i (d - 1)) "", score := if i = 0 then top / 5 else 0,
      total := 20, percentage := if i = 0 then top else 0,
      xpEarned := if i = 0 then calcXP top else 20, date := (i : Int) })

/-- A user record that holds exactly the badges of a closed subset. -/
def BadgeChoice.user (c : BadgeChoice) : User :=
  { sampleUser with
    quizHistory := c.history
    xp := if c.xp1k then 1000 else 0
    streak := if c.streak7 then 7 else if c.streak3 then 3 else 0 }

/-! ## Two submissions for one user -/

/-- A submission as the handler sees it: the body and the clock readings. -/
structure Submission where
  clock : Clock
  req : QuizRequest
deriving DecidableEq, Repr

/-- What `await user.save()` leaves in the store, given the stored record, the
document as `findOne` loaded it and the document as the handler changed it.
The save sends the changes of the document, not the document: the element
pushed onto `quizHistory` is appended to the stored array, and of the assigned
paths `xp`, `level`, `streak`, `lastQuizDate` those whose value differs from
the loaded one are set; every other stored value stays. -/
def saveUser (stored loaded doc : User) : User :=
  { stored with
    quizHistory := stored.quizHistory ++ doc.quizHistory.drop loaded.quizHistory.length
    xp := if doc.xp = loaded.xp then stored.xp else doc.xp
    level := if doc.level = loaded.level then stored.level else doc.level
    streak := if doc.streak = loaded.streak then stored.streak else doc.streak
    lastQuizDate :=
      if doc.lastQuizDate = loaded.lastQuizDate then stored.lastQuizDate else doc.lastQuizDate }

/-- The two points at which a handler run touches the store: `await
User.findOne(...)` and `await user.save()`; everything between them runs
without interruption. `A` and `B` are two requests for the same user. -/
inductive RaceStep where
  | readA
  | writeA
  | readB
  | writeB
deriving DecidableEq, Repr

/-- The store together with the documents the two handler runs loaded. -/
structure Race where
  store : User
  docA : Option User
  docB : Option User
deriving DecidableEq, Repr

/-- The store after the write of a run that loaded `loaded`: the handler runs
on the loaded document and, if it accepts, saves its changes. -/
def Race.write (sub : Submission) (store : User) (loaded : Option User) : User :=
  match loaded, postQuizHistory sub.clock sub.req loaded with
  | some before, (QuizReply.saved _, some doc) => saveUser store before doc
  | _, _ => store

/-- One step of two handler runs sharing a record: a read loads the stored
record; a write runs the handler on what was loaded and saves the changes. -/
def Race.step (a b : Submission) (s : Race) : RaceStep → Race
  | RaceStep.readA => { s with docA := some s.store }
  | RaceStep.readB => { s with docB := some s.store }
  | RaceStep.writeA => { s with store := Race.write a s.store s.docA }
  | RaceStep.writeB => { s with store := Race.write b s.store s.docB }

/-- The stored record after the two runs took their steps in the given order. -/
def race (a b : Submission) (u : User) (schedule : List RaceStep) : User :=
  (schedule.foldl (Race.step a b) { store := u, docA := none, docB := none }).store

/-- The six orders in which the reads and writes of two runs can fall, each
run reading before it writes. -/
def interleavings : List (List RaceStep) :=
  [[RaceStep.readA, RaceStep.writeA, RaceStep.readB, RaceStep.writeB],
   [RaceStep.readA, RaceStep.readB, RaceStep.writeA, RaceStep.writeB],
   [RaceStep.readA, RaceStep.readB, RaceStep.writeB, RaceStep.writeA],
   [RaceStep.readB, RaceStep.readA, RaceStep.writeA, RaceStep.writeB],
   [RaceStep.readB, RaceStep.readA, RaceStep.writeB, RaceStep.writeA],
   [RaceStep.readB, RaceStep.writeB, RaceStep.readA, RaceStep.writeA]]

/-- The sample submission: `sampleRequest` under `sampleClock`. -/
def sampleSubmission : Submission := { clock := sampleClock, req := sampleRequest }

/-- A second submission for the sample user: 10 out of 20 in History, one
second later. -/
def sampleSubmissionB : Submission :=
  { clock := { streakNow := 2000, pushNow := 2000, saveNow := 2000 },
    req := { email := some "asha@upsc.com", subject := some "History", score := some 10,
             total := some 20 } }

/-- The body of the reply to `sampleSubmissionB` sent for `sampleUser`. -/
def sampleBodyB : QuizResult :=
  { xpEarned := 40, totalXP := 40, level := 1, streak := 1,
    rank := getRank 1,
    badges := getBadges { sampleUser with
      quizHistory := [⟨"History", 10, 20, 50, 40, 2000⟩]
      xp := 40, level := 1, streak := 1, lastQuizDate := some 2000 },
    xpForNext := 200, xpForCurrent := 0 }

/-- A record with 100 xp at level 1 and an empty history (a seeded record). -/
def seededUser : User := { sampleUser with xp := 100 }

/-! # Theorems -/

/-! ## The recorder: validation -/

/-- C1 (as amended): the recorder replies 400 exactly when `email` or `subject`
is absent or empty, `score` is absent, or `total` is absent or zero; on a 400 the
record is left as found. A negative `total` is not turned away. -/
theorem postQuizHistory_badRequest_iff (clock : Clock) (req : QuizRequest)
    (found : Option User) :
    ((postQuizHistory clock req found).1 = QuizReply.badRequest ↔
      (req.email = none ∨ req.email = some "" ∨ req.subject = none ∨ req.subject = some "" ∨
        req.score = none ∨ req.total = none ∨ req.total = some 0)) ∧
    ((postQuizHistory clock req found).1 = QuizReply.badRequest →
      (postQuizHistory clock req found).2 = found) := by
  obtain ⟨email, subject, score, total⟩ := req
  cases email <;> cases subject <;> cases score <;> cases total <;>
    simp [postQuizHistory]
  rename_i email subject score total
  by_cases h : email = "" ∨ subject = "" ∨ total = 0
  · simp only [if_pos h]
    simpa using h
  · simp only [if_neg h]
    push_neg at h
    cases found <;> simp [h.1, h.2.1, h.2.2]

/-- C1, witness: a submission with `total = 0` gets the 400 and leaves the
record as found. -/
theorem postQuizHistory_badRequest_iff_witness :
    (postQuizHistory sampleClock ⟨some "asha@upsc.com", some "Polity", some 3, some 0⟩
        (some sampleUser)).1 = QuizReply.badRequest ∧
    (postQuizHistory sampleClock ⟨some "asha@upsc.com", some "Polity", some 3, some 0⟩
        (some sampleUser)).2 = some sampleUser :=
  have h := postQuizHistory_badRequest_iff sampleClock
    ⟨some "asha@upsc.com", some "Polity", some 3, some 0⟩ (some sampleUser)
  have hb := h.1.2 (by decide)
  ⟨hb, h.2 hb⟩

/-- C1, counterexample: a submission with `total = -5`, which is not greater
than 0, is not rejected: it is saved, earns 20 XP and appends an attempt with
percentage -100 to the record. -/
theorem postQuizHistory_negative_total_saved :
    ((-5 : Int) ≤ 0) ∧
    (postQuizHistory sampleClock ⟨some "asha@upsc.com", some "Polity", some 5, some (-5)⟩
        (some sampleUser)).1 ≠ QuizReply.badRequest ∧
    (postQuizHistory sampleClock ⟨some "asha@upsc.com", some "Polity", some 5, some (-5)⟩
        (some sampleUser)).2 =
      some { sampleUser with
        quizHistory := [⟨"Polity", 5, -5, -100, 20, 1000⟩]
        xp := 20, level := 1, streak := 1, lastQuizDate := some 1000 } := by
  decide

/-- What a saved submission looks like: the request carries four usable
fields, and the reply and the stored record are the ones the handler builds. -/
theorem postQuizHistory_saved_inv {clock : Clock} {req : QuizRequest} {u : User}
    {body : QuizResult} (h : (postQuizHistory clock req (some u)).1 = QuizReply.saved body) :
    ∃ email subject score total,
      req = ⟨some email, some subject, some score, some total⟩ ∧
      email ≠ "" ∧ subject ≠ "" ∧ total ≠ 0 ∧
      postQuizHistory clock req (some u) =
        (QuizReply.saved
          { xpEarned := calcXP (percentageOf score total),
            totalXP := u.xp + calcXP (percentageOf score total),
            level := calcLevel (u.xp + calcXP (percentageOf score total)),
            streak := calcStreak clock.streakNow u.lastQuizDate u.streak,
            rank := getRank (calcLevel (u.xp + calcXP (percentageOf score total))),
            badges := getBadges { u with
              quizHistory := u.quizHistory ++
                [⟨subject, score, total, percentageOf score total,
                  calcXP (percentageOf score total), clock.pushNow⟩]
              xp := u.xp + calcXP (percentageOf score total)
              level := calcLevel (u.xp + calcXP (percentageOf score total))
              streak := calcStreak clock.streakNow u.lastQuizDate u.streak
              lastQuizDate := some clock.saveNow },
            xpForNext := xpForNextLevel (calcLevel (u.xp + calcXP (percentageOf score total))),
            xpForCurrent :=
              xpForCurrentLevel (calcLevel (u.xp + calcXP (percentageOf score total))) },
         some { u with
            quizHistory := u.quizHistory ++
              [⟨subject, score, total, percentageOf score total,
                calcXP (percentageOf score total), clock.pushNow⟩]
            xp := u.xp + calcXP (percentageOf score total)
            level := calcLevel (u.xp + calcXP (percentageOf score total))
            streak := calcStreak clock.streakNow u.lastQuizDate u.streak
            lastQuizDate := some clock.saveNow }) := by
  obtain ⟨email, subject, score, total⟩ := req
  cases email <;> cases subject <;> cases score <;> cases total <;>
    simp [postQuizHistory] at h
  rename_i email subject score total
  by_cases hg : email = "" ∨ subject = "" ∨ total = 0
  · simp [hg] at h
  · refine ⟨email, subject, score, total, rfl, ?_, ?_, ?_, ?_⟩
    · exact fun he => hg (Or.inl he)
    · exact fun he => hg (Or.inr (Or.inl he))
    · exact fun he => hg (Or.inr (Or.inr he))
    · simp only [postQuizHistory, if_neg hg]

/-- The XP award is never negative. -/
theorem calcXP_nonneg (p : Int) : 0 ≤ calcXP p := by
  unfold calcXP
  split_ifs <;> omega

/-- C2: every record reachable from a registration by recorded submissions
stores the level that `calcLevel` gives for its xp. -/
theorem reachable_level_eq_calcLevel (u : User) (h : Reachable u) :
    u.level = calcLevel u.xp := by
  induction h with
  | register name email password createdAt =>
    show (1 : Int) = calcLevel 0
    decide
  | submit clock req body _ hpost _ =>
    obtain ⟨email, subject, score, total, -, -, -, -, heq⟩ :=
      postQuizHistory_saved_inv (congrArg Prod.fst hpost)
    rw [hpost] at heq
    have hu := (Option.some.inj (congrArg Prod.snd heq))
    rw [hu]

/-- C2, witness: the sample record after its first quiz is reachable, and its
stored level is the computed one. -/
theorem reachable_level_eq_calcLevel_witness :
    Reachable sampleUser1 ∧ sampleUser1.level = calcLevel sampleUser1.xp :=
  have hr : Reachable sampleUser1 :=
    Reachable.submit sampleClock sampleRequest
      sampleBody
      (Reachable.register "Asha" "asha@upsc.com" "hash" 0) (by decide)
  ⟨hr, reachable_level_eq_calcLevel sampleUser1 hr⟩

/-- C3: a saved submission appends exactly one attempt, built from the
request and the computed percentage, behind the untouched earlier attempts;
it adds `calcXP percentage` to xp, which therefore does not decrease; name,
email and password stay. -/
theorem postQuizHistory_saved_frame (clock : Clock) (req : QuizRequest) (u : User)
    (body : QuizResult)
    (h : (postQuizHistory clock req (some u)).1 = QuizReply.saved body) :
    ∃ u' a,
      (postQuizHistory clock req (some u)).2 = some u' ∧
      u'.quizHistory = u.quizHistory ++ [a] ∧
      u'.quizHistory.take u.quizHistory.length = u.quizHistory ∧
      req.subject = some a.subject ∧ req.score = some a.score ∧ req.total = some a.total ∧
      a.percentage = percentageOf a.score a.total ∧
      a.xpEarned = calcXP a.percentage ∧
      body.xpEarned = calcXP a.percentage ∧
      u'.xp = u.xp + calcXP a.percentage ∧
      u.xp ≤ u'.xp ∧
      u'.name = u.name ∧ u'.email = u.email ∧ u'.password = u.password := by
  obtain ⟨email, subject, score, total, hreq, -, -, -, heq⟩ := postQuizHistory_saved_inv h
  have hb : QuizReply.saved body = _ := h.symm.trans (congrArg Prod.fst heq)
  injection hb with hb
  refine ⟨_, ⟨subject, score, total, percentageOf score total,
    calcXP (percentageOf score total), clock.pushNow⟩, congrArg Prod.snd heq, rfl, ?_, ?_, ?_, ?_,
    rfl, rfl, ?_, rfl, ?_, rfl, rfl, rfl⟩
  · simp
  · rw [hreq]
  · rw [hreq]
  · rw [hreq]
  · rw [hb]
  · have := calcXP_nonneg (percentageOf score total)
    show u.xp ≤ u.xp + calcXP (percentageOf score total)
    omega

/-- C3, witness: the first quiz of the sample user. -/
theorem postQuizHistory_saved_frame_witness :
    ∃ u' a,
      (postQuizHistory sampleClock sampleRequest (some sampleUser)).2 = some u' ∧
      u'.quizHistory = sampleUser.quizHistory ++ [a] ∧
      u'.quizHistory.take sampleUser.quizHistory.length = sampleUser.quizHistory ∧
      sampleRequest.subject = some a.subject ∧ sampleRequest.score = some a.score ∧
      sampleRequest.total = some a.total ∧
      a.percentage = percentageOf a.score a.total ∧
      a.xpEarned = calcXP a.percentage ∧
      (100 : Int) = calcXP a.percentage ∧
      u'.xp = sampleUser.xp + calcXP a.percentage ∧
      sampleUser.xp ≤ u'.xp ∧
      u'.name = sampleUser.name ∧ u'.email = sampleUser.email ∧
      u'.password = sampleUser.password :=
  postQuizHistory_saved_frame sampleClock sampleRequest sampleUser
    sampleBody (by decide)

/-! ## Levels -/

/-- The loop of `calcLevel`, unrolled. -/
theorem calcLevel_eq (xp : Int) :
    calcLevel xp =
      if 15000 ≤ xp then 10 else if 11000 ≤ xp then 9 else if 8000 ≤ xp then 8
      else if 5500 ≤ xp then 7 else if 3500 ≤ xp then 6 else if 2000 ≤ xp then 5
      else if 1000 ≤ xp then 4 else if 500 ≤ xp then 3 else if 200 ≤ xp then 2
      else 1 := by
  simp only [calcLevel, thresholds, List.length_cons, List.length_nil, calcLevelLoop]
  norm_num

/-- C5: for `xp ≥ 0`, `calcLevel xp` is the greatest `L` in `1..10` whose
threshold `thresholds[L-1]` is at most `xp`; from 15000 on it is 10; and the
five sample values. -/
theorem calcLevel_greatest :
    (∀ xp : Int, 0 ≤ xp →
      ∃ k : Nat, calcLevel xp = (k : Int) + 1 ∧ k < 10 ∧ thresholds.getD k 0 ≤ xp ∧
        ∀ j : Nat, j < 10 → thresholds.getD j 0 ≤ xp → j ≤ k) ∧
    (∀ xp : Int, 15000 ≤ xp → calcLevel xp = 10) ∧
    calcLevel 0 = 1 ∧ calcLevel 199 = 1 ∧ calcLevel 200 = 2 ∧ calcLevel 15000 = 10 ∧
    calcLevel 999999 = 10 := by
  refine ⟨?_, ?_, by decide, by decide, by decide, by decide, by decide⟩
  · intro xp hxp
    rw [calcLevel_eq]
    have hmax : ∀ (k j : Nat), j < 10 → (k < 9 → xp < thresholds.getD (k + 1) 0) →
        thresholds.getD j 0 ≤ xp → j ≤ k := by
      intro k j hj hk hle
      by_contra hjk
      have hk9 : k < 9 := by omega
      have hlt := hk hk9
      interval_cases j <;> interval_cases k <;>
        simp [thresholds] at hle hlt hjk <;> omega
    split_ifs
    · exact ⟨9, by norm_num, by norm_num, by simp [thresholds]; omega,
        fun j hj => hmax 9 j hj (by simp [thresholds])⟩
    · exact ⟨8, by norm_num, by norm_num, by simp [thresholds]; omega,
        fun j hj => hmax 8 j hj (by simp [thresholds]; omega)⟩
    · exact ⟨7, by norm_num, by norm_num, by simp [thresholds]; omega,
        fun j hj => hmax 7 j hj (by simp [thresholds]; omega)⟩
    · exact ⟨6, by norm_num, by norm_num, by simp [thresholds]; omega,
        fun j hj => hmax 6 j hj (by simp [thresholds]; omega)⟩
    · exact ⟨5, by norm_num, by norm_num, by simp [thresholds]; omega,
        fun j hj => hmax 5 j hj (by simp [thresholds]; omega)⟩
    · exact ⟨4, by norm_num, by norm_num, by simp [thresholds]; omega,
        fun j hj => hmax 4 j hj (by simp [thresholds]; omega)⟩
    · exact ⟨3, by norm_num, by norm_num, by simp [thresholds]; omega,
        fun j hj => hmax 3 j hj (by simp [thresholds]; omega)⟩
    · exact ⟨2, by norm_num, by norm_num, by simp [thresholds]; omega,
        fun j hj => hmax 2 j hj (by simp [thresholds]; omega)⟩
    · exact ⟨1, by norm_num, by norm_num, by simp [thresholds]; omega,
        fun j hj => hmax 1 j hj (by simp [thresholds]; omega)⟩
    · exact ⟨0, by norm_num, by norm_num, by simp [thresholds]; omega,
        fun j hj => hmax 0 j hj (by simp [thresholds]; omega)⟩
  · intro xp hxp
    rw [calcLevel_eq, if_pos hxp]

/-- C5, witness: 750 xp is level 3, threshold 500, and no threshold up to 750
belongs to a higher level. -/
theorem calcLevel_greatest_witness :
    ∃ k : Nat, calcLevel 750 = (k : Int) + 1 ∧ k < 10 ∧ thresholds.getD k 0 ≤ 750 ∧
      ∀ j : Nat, j < 10 → thresholds.getD j 0 ≤ 750 → j ≤ k :=
  calcLevel_greatest.1 750 (by decide)

/-! ## Badges -/

/-- The ids after one conditional push. -/
theorem map_id_pushIf (c : Bool) (b : Badge) (l : List Badge) :
    (pushIf c b l).map Badge.id = l.map Badge.id ++ (if c then [b.id] else []) := by
  cases c <;> simp [pushIf]

/-- Membership in a one-element list that is there or not. -/
theorem mem_ite_singleton {x y : String} {c : Bool} :
    (x ∈ if c = true then [y] else []) ↔ (c = true ∧ x = y) := by
  cases c <;> simp

/-- The accumulator of `distinct`: it stays duplicate-free and gathers every element. -/
theorem distinct_foldl (xs seen : List String) (h : seen.Nodup) :
    (xs.foldl (fun seen x => if x ∈ seen then seen else seen ++ [x]) seen).Nodup ∧
    (xs.foldl (fun seen x => if x ∈ seen then seen else seen ++ [x]) seen).toFinset =
      seen.toFinset ∪ xs.toFinset := by
  induction xs generalizing seen with
  | nil => simp [h]
  | cons x xs ih =>
    simp only [List.foldl_cons]
    by_cases hx : x ∈ seen
    · rw [if_pos hx]
      refine ⟨(ih seen h).1, ?_⟩
      rw [(ih seen h).2]
      ext y
      simp only [Finset.mem_union, List.mem_toFinset, List.mem_cons]
      constructor
      · rintro (h1 | h1)
        · exact Or.inl h1
        · exact Or.inr (Or.inr h1)
      · rintro (h1 | h1 | h1)
        · exact Or.inl h1
        · exact Or.inl (h1 ▸ hx)
        · exact Or.inr h1
    · rw [if_neg hx]
      have hn : (seen ++ [x]).Nodup := by
        rw [List.nodup_append]
        refine ⟨h, List.nodup_singleton x, ?_⟩
        intro a ha hb
        rw [List.mem_singleton] at hb
        exact hx (hb ▸ ha)
      refine ⟨(ih _ hn).1, ?_⟩
      rw [(ih _ hn).2]
      ext y
      simp only [Finset.mem_union, List.mem_toFinset, List.mem_cons, List.mem_append,
        List.mem_singleton]
      tauto

/-- The length of `distinct xs` is the number of different strings in `xs`. -/
theorem length_distinct (xs : List String) : (distinct xs).length = xs.toFinset.card := by
  have h := distinct_foldl xs [] List.nodup_nil
  unfold distinct
  rw [← List.toFinset_card_of_nodup h.1, h.2]
  simp

/-- The ids of `getBadges u`, test by test. -/
theorem getBadges_ids_eq (u : User) :
    (getBadges u).map Badge.id =
      (if decide (u.quizHistory.length ≥ 1) = true then ["first"] else []) ++
      ((if decide (u.quizHistory.length ≥ 5) = true then ["quizzer"] else []) ++
      ((if decide (u.quizHistory.length ≥ 20) = true then ["dedicated"] else []) ++
      ((if u.quizHistory.any (fun h => decide (h.percentage ≥ 80)) = true
          then ["scholar"] else []) ++
      ((if u.quizHistory.any (fun h => decide (h.percentage = 100)) = true
          then ["perfect"] else []) ++
      ((if decide ((distinct (u.quizHistory.map (fun h => h.subject))).length ≥ 3) = true
          then ["explorer"] else []) ++
      ((if decide ((distinct (u.quizHistory.map (fun h => h.subject))).length ≥ 5) = true
          then ["allrounder"] else []) ++
      ((if decide (u.streak ≥ 3) = true then ["streak3"] else []) ++
      ((if decide (u.streak ≥ 7) = true then ["streak7"] else []) ++
      (if decide (u.xp ≥ 1000) = true then ["xp1k"] else []))))))))) := by
  simp only [getBadges, map_id_pushIf, List.map_nil, List.nil_append, List.append_assoc]

/-- Each id is among the ids of `getBadges u` exactly when its rule holds. -/
theorem mem_getBadges_ids (u : User) :
    ("first" ∈ (getBadges u).map Badge.id ↔ 1 ≤ u.quizHistory.length) ∧
    ("quizzer" ∈ (getBadges u).map Badge.id ↔ 5 ≤ u.quizHistory.length) ∧
    ("dedicated" ∈ (getBadges u).map Badge.id ↔ 20 ≤ u.quizHistory.length) ∧
    ("scholar" ∈ (getBadges u).map Badge.id ↔ ∃ a ∈ u.quizHistory, 80 ≤ a.percentage) ∧
    ("perfect" ∈ (getBadges u).map Badge.id ↔ ∃ a ∈ u.quizHistory, a.percentage = 100) ∧
    ("explorer" ∈ (getBadges u).map Badge.id ↔
      3 ≤ (u.quizHistory.map (fun a => a.subject)).toFinset.card) ∧
    ("allrounder" ∈ (getBadges u).map Badge.id ↔
      5 ≤ (u.quizHistory.map (fun a => a.subject)).toFinset.card) ∧
    ("streak3" ∈ (getBadges u).map Badge.id ↔ 3 ≤ u.streak) ∧
    ("streak7" ∈ (getBadges u).map Badge.id ↔ 7 ≤ u.streak) ∧
    ("xp1k" ∈ (getBadges u).map Badge.id ↔ 1000 ≤ u.xp) := by
  rw [getBadges_ids_eq]
  simp only [List.mem_append, mem_ite_singleton, length_distinct]
  simp [List.any_eq_true]

/-- C7: the ids of `getBadges u` form a duplicate-free list, a subsequence of
the fixed order first, quizzer, dedicated, scholar, perfect, explorer,
allrounder, streak3, streak7, xp1k, and each id is present exactly when its rule
holds; subjects are counted as distinct strings. -/
theorem getBadges_ids (u : User) :
    ((getBadges u).map Badge.id).Nodup ∧
    ((getBadges u).map Badge.id).Sublist
      ["first", "quizzer", "dedicated", "scholar", "perfect", "explorer", "allrounder",
        "streak3", "streak7", "xp1k"] ∧
    ("first" ∈ (getBadges u).map Badge.id ↔ 1 ≤ u.quizHistory.length) ∧
    ("quizzer" ∈ (getBadges u).map Badge.id ↔ 5 ≤ u.quizHistory.length) ∧
    ("dedicated" ∈ (getBadges u).map Badge.id ↔ 20 ≤ u.quizHistory.length) ∧
    ("scholar" ∈ (getBadges u).map Badge.id ↔ ∃ a ∈ u.quizHistory, 80 ≤ a.percentage) ∧
    ("perfect" ∈ (getBadges u).map Badge.id ↔ ∃ a ∈ u.quizHistory, a.percentage = 100) ∧
    ("explorer" ∈ (getBadges u).map Badge.id ↔
      3 ≤ (u.quizHistory.map (fun a => a.subject)).toFinset.card) ∧
    ("allrounder" ∈ (getBadges u).map Badge.id ↔
      5 ≤ (u.quizHistory.map (fun a => a.subject)).toFinset.card) ∧
    ("streak3" ∈ (getBadges u).map Badge.id ↔ 3 ≤ u.streak) ∧
    ("streak7" ∈ (getBadges u).map Badge.id ↔ 7 ≤ u.streak) ∧
    ("xp1k" ∈ (getBadges u).map Badge.id ↔ 1000 ≤ u.xp) := by
  have hsub : ((getBadges u).map Badge.id).Sublist
      ["first", "quizzer", "dedicated", "scholar", "perfect", "explorer", "allrounder",
        "streak3", "streak7", "xp1k"] := by
    rw [getBadges_ids_eq]
    have one : ∀ (c : Bool) (x : String), (if c = true then [x] else []).Sublist [x] := by
      intro c x
      cases c <;> simp
    exact ((one _ _).append ((one _ _).append ((one _ _).append ((one _ _).append
      ((one _ _).append ((one _ _).append ((one _ _).append ((one _ _).append
      ((one _ _).append (one _ _))))))))))
  exact ⟨hsub.nodup (by decide), hsub, mem_getBadges_ids u⟩

/-! ## Sorting and maxima -/

section SortLemmas

variable (r : QuizAttempt → QuizAttempt → Prop) [DecidableRel r] (k : QuizAttempt → Int)

/-- Insertion keeps, for every key `d`, the attempts of key `d` in their order,
the inserted one in front of its equals. -/
theorem filter_orderedInsert (hr : ∀ a b, r a b ↔ k a ≤ k b) (a : QuizAttempt)
    (l : List QuizAttempt) (d : Int) :
    (l.orderedInsert r a).filter (fun b => decide (k b = d)) =
      (a :: l).filter (fun b => decide (k b = d)) := by
  induction l with
  | nil => simp
  | cons b l ih =>
    by_cases hab : r a b
    · rw [List.orderedInsert, if_pos hab]
    · rw [List.orderedInsert, if_neg hab, List.filter_cons, ih]
      have hlt : k b < k a := by
        have := (hr a b).not.1 hab
        omega
      by_cases hb : k b = d
      · have ha : ¬ k a = d := by omega
        simp [List.filter_cons, hb, ha]
      · simp [List.filter_cons, hb]

/-- The sort is stable: attempts of equal key keep their order. -/
theorem filter_insertionSort (hr : ∀ a b, r a b ↔ k a ≤ k b) (l : List QuizAttempt)
    (d : Int) :
    (l.insertionSort r).filter (fun b => decide (k b = d)) =
      l.filter (fun b => decide (k b = d)) := by
  induction l with
  | nil => simp
  | cons a l ih =>
    rw [List.insertionSort, filter_orderedInsert r k hr, List.filter_cons, List.filter_cons, ih]

/-- The sort yields a list in ascending order of key. -/
theorem sorted_insertionSort_key (hr : ∀ a b, r a b ↔ k a ≤ k b) (l : List QuizAttempt) :
    (l.insertionSort r).Sorted (fun a b => k a ≤ k b) := by
  haveI : IsTotal QuizAttempt r := ⟨fun a b => by
    rw [hr, hr]
    exact le_total _ _⟩
  haveI : IsTrans QuizAttempt r := ⟨fun a b c => by
    rw [hr, hr, hr]
    exact le_trans⟩
  exact (List.sorted_insertionSort r l).imp (fun h => (hr _ _).1 h)

/-- Inserting in front of an element that may follow. -/
theorem orderedInsert_append_of_rel (x a : QuizAttempt) (hxa : r x a)
    (l₁ l₂ : List QuizAttempt) :
    (l₁ ++ a :: l₂).orderedInsert r x = l₁.orderedInsert r x ++ a :: l₂ := by
  induction l₁ with
  | nil => simp [List.orderedInsert, hxa]
  | cons b l₁ ih =>
    by_cases hxb : r x b
    · simp [List.orderedInsert, hxb]
    · simp [List.orderedInsert, hxb, ih]

/-- Inserting behind a prefix that must all come first. -/
theorem orderedInsert_append_of_not_rel (x a : QuizAttempt) (hxa : ¬ r x a)
    (l₁ l₂ : List QuizAttempt) (h₁ : ∀ b ∈ l₁, ¬ r x b) :
    (l₁ ++ a :: l₂).orderedInsert r x = l₁ ++ a :: l₂.orderedInsert r x := by
  induction l₁ with
  | nil => simp [List.orderedInsert, hxa]
  | cons b l₁ ih =>
    have hxb : ¬ r x b := h₁ b (List.mem_cons_self _ _)
    simp [List.orderedInsert, hxb, ih (fun c hc => h₁ c (List.mem_cons_of_mem _ hc))]

/-- Where the last element of the input lands: behind exactly those earlier
elements whose key is not above its own. -/
theorem insertionSort_concat (hr : ∀ a b, r a b ↔ k a ≤ k b) (l : List QuizAttempt)
    (a : QuizAttempt) :
    ∃ l₁ l₂, (l ++ [a]).insertionSort r = l₁ ++ a :: l₂ ∧
      l₁.length = (l.filter (fun b => decide (k b ≤ k a))).length ∧
      ∀ b ∈ l₁, k b ≤ k a := by
  induction l with
  | nil => exact ⟨[], [], by simp, by simp, by simp⟩
  | cons x l ih =>
    obtain ⟨l₁, l₂, heq, hlen, hle⟩ := ih
    rw [List.cons_append, List.insertionSort, heq]
    by_cases hxa : r x a
    · refine ⟨l₁.orderedInsert r x, l₂, orderedInsert_append_of_rel r x a hxa l₁ l₂, ?_, ?_⟩
      · have hk : k x ≤ k a := (hr x a).1 hxa
        simp [List.orderedInsert_length, hlen, List.filter_cons, hk]
      · intro b hb
        rcases (List.mem_orderedInsert r).1 hb with rfl | hb
        · exact (hr _ a).1 hxa
        · exact hle b hb
    · have hk : ¬ k x ≤ k a := (hr x a).not.1 hxa
      refine ⟨l₁, l₂.orderedInsert r x, orderedInsert_append_of_not_rel r x a hxa l₁ l₂ ?_, ?_, hle⟩
      · intro b hb hxb
        have h1 := hle b hb
        have h2 := (hr x b).1 hxb
        omega
      · simp [hlen, List.filter_cons, hk]

end SortLemmas

/-- The maximum of a non-empty list is one of its members and bounds them all. -/
theorem foldl_max_spec (x : Int) (rest : List Int) :
    rest.foldl max x ∈ x :: rest ∧ ∀ y ∈ x :: rest, y ≤ rest.foldl max x := by
  induction rest generalizing x with
  | nil => simp
  | cons z rest ih =>
    obtain ⟨hmem, hle⟩ := ih (max x z)
    simp only [List.foldl_cons]
    refine ⟨?_, ?_⟩
    · rcases List.mem_cons.1 hmem with h | h
      · rw [h]
        rcases max_choice x z with h' | h' <;> simp [h']
      · exact List.mem_cons_of_mem _ (List.mem_cons_of_mem _ h)
    · intro y hy
      have hm := hle (max x z) (List.mem_cons_self _ _)
      rcases List.mem_cons.1 hy with rfl | hy
      · exact le_trans (le_max_left _ _) hm
      · rcases List.mem_cons.1 hy with rfl | hy
        · exact le_trans (le_max_right _ _) hm
        · exact hle y (List.mem_cons_of_mem _ hy)

/-- On a non-empty list `mathMax` gives a member that bounds all members. -/
theorem mathMax_spec (xs : List Int) (h : xs ≠ []) :
    mathMax xs ∈ xs ∧ ∀ y ∈ xs, y ≤ mathMax xs := by
  cases xs with
  | nil => exact absurd rfl h
  | cons x rest => exact foldl_max_spec x rest

/-! ## Dashboard statistics -/

/-- The last element, by index. -/
theorem getD_length_sub_one (init : List QuizAttempt) (x d : QuizAttempt) :
    (init ++ [x]).getD ((init ++ [x]).length - 1) d = x := by
  have h : (init ++ [x]).length - 1 = init.length := by simp
  rw [h, List.getD_eq_getElem?_getD, List.getElem?_append_right (le_refl _)]
  simp

/-- The element before the last, by index. -/
theorem getD_length_sub_two (init : List QuizAttempt) (p x d : QuizAttempt) :
    (init ++ [p, x]).getD ((init ++ [p, x]).length - 2) d = p := by
  have h : (init ++ [p, x]).length - 2 = init.length := by simp
  rw [h, List.getD_eq_getElem?_getD, List.getElem?_append_right (le_refl _)]
  simp

/-- What `subjectStat` computes, against a stable ascending sort of the
subject's attempts. -/
theorem subjectStat_spec (h : List QuizAttempt) (s : String) :
    (h.filter (fun a => decide (a.subject = s)) = [] →
      subjectStat h s = { attempts := 0, best := 0, latest := 0, trend := "none" }) ∧
    (h.filter (fun a => decide (a.subject = s)) ≠ [] →
      ∃ sorted : List QuizAttempt,
        sorted.Perm (h.filter (fun a => decide (a.subject = s))) ∧
        sorted.Sorted (fun a b => a.date ≤ b.date) ∧
        (∀ d : Int, sorted.filter (fun a => decide (a.date = d)) =
          (h.filter (fun a => decide (a.subject = s))).filter (fun a => decide (a.date = d))) ∧
        (subjectStat h s).attempts = (h.filter (fun a => decide (a.subject = s))).length ∧
        (∃ a ∈ h.filter (fun a => decide (a.subject = s)),
          (subjectStat h s).best = a.percentage) ∧
        (∀ a ∈ h.filter (fun a => decide (a.subject = s)),
          a.percentage ≤ (subjectStat h s).best) ∧
        ((∃ latest, sorted = [latest] ∧ (subjectStat h s).latest = latest.percentage ∧
            (subjectStat h s).trend = "same") ∨
         (∃ init prev latest, sorted = init ++ [prev, latest] ∧
            (subjectStat h s).latest = latest.percentage ∧
            (subjectStat h s).trend =
              if latest.percentage > prev.percentage then "up"
              else if latest.percentage < prev.percentage then "down" else "same"))) := by
  constructor
  · intro hnil
    simp only [subjectStat, hnil]
  · intro hne
    have hr : ∀ a b : QuizAttempt, a.date - b.date ≤ 0 ↔ a.date ≤ b.date := fun a b => by omega
    cases hatt : h.filter (fun a => decide (a.subject = s)) with
    | nil => exact absurd hatt hne
    | cons first others =>
      have hperm : (sortBy (fun a b => a.date - b.date) (first :: others)).Perm
          (first :: others) := List.perm_insertionSort _ _
      have hsne : sortBy (fun a b => a.date - b.date) (first :: others) ≠ [] := by
        intro h0
        have := hperm.length_eq
        rw [h0] at this
        simp at this
      have hmax := mathMax_spec
        ((sortBy (fun a b => a.date - b.date) (first :: others)).map (fun a => a.percentage))
        (by simpa using hsne)
      refine ⟨sortBy (fun a b => a.date - b.date) (first :: others), hperm,
        sorted_insertionSort_key _ (fun a => a.date) hr _,
        fun d => filter_insertionSort _ (fun a => a.date) hr _ d, ?_, ?_, ?_, ?_⟩
      · simp only [subjectStat, hatt]
        exact hperm.length_eq
      · obtain ⟨a, ha, hpa⟩ := List.mem_map.1 hmax.1
        exact ⟨a, hperm.mem_iff.1 ha, by simp only [subjectStat, hatt]; exact hpa.symm⟩
      · intro a ha
        simp only [subjectStat, hatt]
        exact hmax.2 _ (List.mem_map.2 ⟨a, hperm.mem_iff.2 ha, rfl⟩)
      · simp only [subjectStat, hatt]
        generalize sortBy (fun a b => a.date - b.date) (first :: others) = sorted at hsne
        rcases List.eq_nil_or_concat sorted with h0 | ⟨init', latest, rfl⟩
        · exact absurd h0 hsne
        · rcases List.eq_nil_or_concat init' with h0 | ⟨init, prev, rfl⟩
          · subst h0
            left
            exact ⟨latest, rfl, by simp, by simp⟩
          · right
            have hl : (init.concat prev).concat latest = init ++ [prev, latest] := by simp
            rw [hl]
            refine ⟨init, prev, latest, rfl, ?_, ?_⟩
            · have := getD_length_sub_one (init ++ [prev]) latest first
              simp only [List.append_assoc, List.singleton_append] at this
              simp only [this]
            · have h1 := getD_length_sub_one (init ++ [prev]) latest first
              simp only [List.append_assoc, List.singleton_append] at h1
              have h2 := getD_length_sub_two init prev latest first
              have h3 : (init ++ [prev, latest]).length > 1 := by simp
              simp only [h1, h2, if_pos h3]


/-- C8: the stats reply carries one entry for each of the five fixed subjects,
computed by `subjectStat`; for any subject `s` that entry is
`{attempts: 0, best: 0, latest: 0, trend: 'none'}` when no attempt has subject
`s`, and otherwise counts the attempts of subject `s`, takes the maximum of
their percentages as `best`, the last attempt of their stable date-ascending
sort as `latest`, the one before it (or `latest` itself for a single attempt,
trend 'same') as `prev`, and sets the trend by comparing the two. -/
theorem getStats_subjectStats (u : User) (s : String) :
    (∃ body, getStats (some u) = (StatsReply.ok body, some u) ∧
      body.subjectStats =
        [("Geography", subjectStat u.quizHistory "Geography"),
         ("History", subjectStat u.quizHistory "History"),
         ("Polity", subjectStat u.quizHistory "Polity"),
         ("Economics", subjectStat u.quizHistory "Economics"),
         ("Science", subjectStat u.quizHistory "Science")]) ∧
    (u.quizHistory.filter (fun a => decide (a.subject = s)) = [] →
      subjectStat u.quizHistory s =
        { attempts := 0, best := 0, latest := 0, trend := "none" }) ∧
    (u.quizHistory.filter (fun a => decide (a.subject = s)) ≠ [] →
      ∃ sorted : List QuizAttempt,
        sorted.Perm (u.quizHistory.filter (fun a => decide (a.subject = s))) ∧
        sorted.Sorted (fun a b => a.date ≤ b.date) ∧
        (∀ d : Int, sorted.filter (fun a => decide (a.date = d)) =
          (u.quizHistory.filter (fun a => decide (a.subject = s))).filter
            (fun a => decide (a.date = d))) ∧
        (subjectStat u.quizHistory s).attempts =
          (u.quizHistory.filter (fun a => decide (a.subject = s))).length ∧
        (∃ a ∈ u.quizHistory.filter (fun a => decide (a.subject = s)),
          (subjectStat u.quizHistory s).best = a.percentage) ∧
        (∀ a ∈ u.quizHistory.filter (fun a => decide (a.subject = s)),
          a.percentage ≤ (subjectStat u.quizHistory s).best) ∧
        ((∃ latest, sorted = [latest] ∧
            (subjectStat u.quizHistory s).latest = latest.percentage ∧
            (subjectStat u.quizHistory s).trend = "same") ∨
         (∃ init prev latest, sorted = init ++ [prev, latest] ∧
            (subjectStat u.quizHistory s).latest = latest.percentage ∧
            (subjectStat u.quizHistory s).trend =
              if latest.percentage > prev.percentage then "up"
              else if latest.percentage < prev.percentage then "down" else "same"))) :=
  ⟨⟨_, rfl, rfl⟩, subjectStat_spec u.quizHistory s⟩

/-- C8, witness: for the sample user after one Geography quiz, History has the
empty entry and Geography the entry of a single attempt. -/
theorem getStats_subjectStats_witness :
    subjectStat sampleUser1.quizHistory "History" =
      { attempts := 0, best := 0, latest := 0, trend := "none" } ∧
    ∃ sorted : List QuizAttempt,
      sorted.Perm (sampleUser1.quizHistory.filter (fun a => decide (a.subject = "Geography"))) ∧
      sorted.Sorted (fun a b => a.date ≤ b.date) ∧
      (∀ d : Int, sorted.filter (fun a => decide (a.date = d)) =
        (sampleUser1.quizHistory.filter (fun a => decide (a.subject = "Geography"))).filter
          (fun a => decide (a.date = d))) ∧
      (subjectStat sampleUser1.quizHistory "Geography").attempts =
        (sampleUser1.quizHistory.filter (fun a => decide (a.subject = "Geography"))).length ∧
      (∃ a ∈ sampleUser1.quizHistory.filter (fun a => decide (a.subject = "Geography")),
        (subjectStat sampleUser1.quizHistory "Geography").best = a.percentage) ∧
      (∀ a ∈ sampleUser1.quizHistory.filter (fun a => decide (a.subject = "Geography")),
        a.percentage ≤ (subjectStat sampleUser1.quizHistory "Geography").best) ∧
      ((∃ latest, sorted = [latest] ∧
          (subjectStat sampleUser1.quizHistory "Geography").latest = latest.percentage ∧
          (subjectStat sampleUser1.quizHistory "Geography").trend = "same") ∨
       (∃ init prev latest, sorted = init ++ [prev, latest] ∧
          (subjectStat sampleUser1.quizHistory "Geography").latest = latest.percentage ∧
          (subjectStat sampleUser1.quizHistory "Geography").trend =
            if latest.percentage > prev.percentage then "up"
            else if latest.percentage < prev.percentage then "down" else "same")) :=
  ⟨(getStats_subjectStats sampleUser1 "History").2.1 (by decide),
   (getStats_subjectStats sampleUser1 "Geography").2.2 (by decide)⟩

/-- C9: `recentHistory` has `min 10 n` elements, is in non-increasing order of
date, is a sub-multiset of `quizHistory`, and no omitted attempt is dated after
an included one; the stats handler returns it and hands the record back as
found. -/
theorem recentHistory_spec (u : User) :
    (recentHistory u.quizHistory).length = min 10 u.quizHistory.length ∧
    (recentHistory u.quizHistory).Sorted (fun a b => a.date ≥ b.date) ∧
    List.Subperm (recentHistory u.quizHistory) u.quizHistory ∧
    (∃ omitted : List QuizAttempt,
      (recentHistory u.quizHistory ++ omitted).Perm u.quizHistory ∧
      ∀ a ∈ recentHistory u.quizHistory, ∀ b ∈ omitted, b.date ≤ a.date) ∧
    (∃ body, getStats (some u) = (StatsReply.ok body, some u) ∧
      body.recentHistory = recentHistory u.quizHistory) := by
  have hr : ∀ a b : QuizAttempt, b.date - a.date ≤ 0 ↔ -a.date ≤ -b.date := fun a b => by omega
  have hsorted : (sortBy (fun a b => b.date - a.date) u.quizHistory).Sorted
      (fun a b => a.date ≥ b.date) :=
    (sorted_insertionSort_key _ (fun a => -a.date) hr u.quizHistory).imp
      (fun h => by simp only [ge_iff_le]; omega)
  have hperm : (sortBy (fun a b => b.date - a.date) u.quizHistory).Perm u.quizHistory :=
    List.perm_insertionSort _ _
  have hsplit : recentHistory u.quizHistory ++
      (sortBy (fun a b => b.date - a.date) u.quizHistory).drop 10 =
      sortBy (fun a b => b.date - a.date) u.quizHistory := List.take_append_drop 10 _
  refine ⟨?_, ?_, ?_, ?_, ?_⟩
  · simp only [recentHistory, List.length_take, hperm.length_eq]
  · exact hsorted.sublist (List.take_sublist 10 _)
  · exact (List.take_sublist 10 _).subperm.trans hperm.subperm
  · refine ⟨(sortBy (fun a b => b.date - a.date) u.quizHistory).drop 10, ?_, ?_⟩
    · rw [hsplit]
      exact hperm
    · intro a ha b hb
      have hp : (recentHistory u.quizHistory ++
          (sortBy (fun a b => b.date - a.date) u.quizHistory).drop 10).Pairwise
          (fun a b => a.date ≥ b.date) := by
        rw [hsplit]
        exact hsorted
      exact (List.pairwise_append.1 hp).2.2 a ha b hb
  · exact ⟨_, rfl, rfl⟩

/-- The attempt at the end of the history is among the recent ten as soon as
fewer than ten earlier attempts are dated at or after it. -/
theorem mem_recentHistory_concat (l : List QuizAttempt) (a : QuizAttempt)
    (h : (l.filter (fun b => decide (a.date ≤ b.date))).length < 10) :
    a ∈ recentHistory (l ++ [a]) := by
  have hr : ∀ a b : QuizAttempt, b.date - a.date ≤ 0 ↔ -a.date ≤ -b.date := fun a b => by omega
  obtain ⟨l₁, l₂, heq, hlen, -⟩ :=
    insertionSort_concat (fun a b => b.date - a.date ≤ 0) (fun a => -a.date) hr l a
  have hf : l.filter (fun b => decide (-b.date ≤ -a.date)) =
      l.filter (fun b => decide (a.date ≤ b.date)) := by
    congr 1
    funext b
    simp
  rw [hf] at hlen
  unfold recentHistory sortBy
  rw [heq, List.take_append_eq_append_take]
  apply List.mem_append_right
  obtain ⟨m, hm⟩ : ∃ m, 10 - l₁.length = m + 1 := ⟨10 - l₁.length - 1, by omega⟩
  rw [hm, List.take_succ_cons]
  exact List.mem_cons_self _ _


/-- C10 (as amended): after a saved submission the stats of the stored record
show the xp, level and streak of the submission's reply and one more quiz than
before; the new attempt, dated by the clock, is in `recentHistory` whenever
fewer than ten earlier attempts are dated at or after it. -/
theorem getStats_after_postQuizHistory (clock : Clock) (req : QuizRequest) (u : User)
    (body : QuizResult)
    (h : (postQuizHistory clock req (some u)).1 = QuizReply.saved body) :
    ∃ u' a before after,
      (postQuizHistory clock req (some u)).2 = some u' ∧
      u'.quizHistory = u.quizHistory ++ [a] ∧ a.date = clock.pushNow ∧
      getStats (some u) = (StatsReply.ok before, some u) ∧
      getStats (some u') = (StatsReply.ok after, some u') ∧
      after.xp = body.totalXP ∧ after.level = body.level ∧ after.streak = body.streak ∧
      after.totalQuizzes = before.totalQuizzes + 1 ∧
      ((u.quizHistory.filter (fun b => decide (a.date ≤ b.date))).length < 10 →
        a ∈ after.recentHistory) := by
  obtain ⟨email, subject, score, total, -, -, -, -, heq⟩ := postQuizHistory_saved_inv h
  have hb : QuizReply.saved body = _ := h.symm.trans (congrArg Prod.fst heq)
  injection hb with hb
  refine ⟨_, ⟨subject, score, total, percentageOf score total,
    calcXP (percentageOf score total), clock.pushNow⟩, _, _, congrArg Prod.snd heq, rfl, rfl,
    rfl, rfl, ?_, ?_, ?_, ?_, ?_⟩
  · rw [hb]
  · rw [hb]
  · rw [hb]
  · simp
  · intro hlt
    exact mem_recentHistory_concat u.quizHistory _ hlt

/-- C10, witness: the first quiz of the sample user shows up in the stats that
follow, with the xp, level and streak of the reply. -/
theorem getStats_after_postQuizHistory_witness :
    ∃ u' a before after,
      (postQuizHistory sampleClock sampleRequest (some sampleUser)).2 = some u' ∧
      u'.quizHistory = sampleUser.quizHistory ++ [a] ∧ a.date = sampleClock.pushNow ∧
      getStats (some sampleUser) = (StatsReply.ok before, some sampleUser) ∧
      getStats (some u') = (StatsReply.ok after, some u') ∧
      after.xp = sampleBody.totalXP ∧ after.level = sampleBody.level ∧
      after.streak = sampleBody.streak ∧
      after.totalQuizzes = before.totalQuizzes + 1 ∧
      a ∈ after.recentHistory := by
  obtain ⟨u', a, before, after, h1, h2, h3, h4, h5, h6, h7, h8, h9, h10⟩ :=
    getStats_after_postQuizHistory sampleClock sampleRequest sampleUser sampleBody (by decide)
  exact ⟨u', a, before, after, h1, h2, h3, h4, h5, h6, h7, h8, h9,
    h10 (by simp [sampleUser, User.register])⟩

/-- C10, counterexample: a record holds ten attempts dated after the clock's
reading; the submission is saved, yet the `recentHistory` of the stats that
follow consists of those ten and leaves the new attempt out. -/
theorem getStats_recentHistory_misses_new_attempt :
    (postQuizHistory sampleClock sampleRequest (some aheadUser)).2.map
        (fun u' => u'.quizHistory) =
      some (aheadUser.quizHistory ++ [⟨"Geography", 16, 20, 80, 100, 1000⟩]) ∧
    (∀ body, (getStats (postQuizHistory sampleClock sampleRequest (some aheadUser)).2).1 =
        StatsReply.ok body →
      (⟨"Geography", 16, 20, 80, 100, 1000⟩ : QuizAttempt) ∉ body.recentHistory) := by
  refine ⟨by decide, ?_⟩
  intro body hbody
  have hs : (getStats (postQuizHistory sampleClock sampleRequest (some aheadUser)).2).1 =
      StatsReply.ok
        { name := "Asha", email := "asha@upsc.com", xp := 500, level := 3, streak := 1,
          rank := getRank 3,
          badges := getBadges { aheadUser with
            quizHistory := aheadUser.quizHistory ++ [⟨"Geography", 16, 20, 80, 100, 1000⟩]
            xp := 500, level := 3, streak := 1, lastQuizDate := some 1000 },
          subjectStats := subjects.map (fun s => (s, subjectStat
            (aheadUser.quizHistory ++ [⟨"Geography", 16, 20, 80, 100, 1000⟩]) s)),
          recentHistory := aheadUser.quizHistory.reverse,
          totalQuizzes := 11, xpForNext := 1000, xpForCurrent := 500 } := by
    decide
  rw [hs] at hbody
  injection hbody with hbody
  rw [← hbody]
  decide

/-! ## Binary64 rounding -/

/-- With enough fuel, `log2Fuel` brackets its argument between two powers of 2. -/
theorem log2Fuel_spec (fuel n : Nat) (hn : 0 < n) (hf : n ≤ fuel) :
    2 ^ log2Fuel fuel n ≤ n ∧ n < 2 ^ (log2Fuel fuel n + 1) := by
  induction fuel generalizing n with
  | zero => omega
  | succ fuel ih =>
    unfold log2Fuel
    by_cases h2 : n < 2
    · rw [if_pos h2]
      have : n = 1 := by omega
      subst this
      simp
    · rw [if_neg h2]
      obtain ⟨h1, h3⟩ := ih (n / 2) (by omega) (by omega)
      rw [pow_succ] at h3 ⊢
      rw [pow_succ]
      constructor <;> omega

/-- A positive number lies between `2 ^ log2 n` and the next power of 2. -/
theorem log2_spec (n : Nat) (hn : 0 < n) : 2 ^ log2 n ≤ n ∧ n < 2 ^ (log2 n + 1) :=
  log2Fuel_spec n n hn (le_refl n)

/-- An integer power of 2 as a quotient of two natural powers. -/
theorem two_zpow_eq (k : Int) :
    (2 : ℚ) ^ k = (2 : ℚ) ^ k.toNat / (2 : ℚ) ^ (-k).toNat := by
  rcases le_total 0 k with hk | hk
  · have h1 : (-k).toNat = 0 := Int.toNat_eq_zero.2 (by omega)
    rw [h1, pow_zero, div_one, ← zpow_natCast, Int.toNat_of_nonneg hk]
  · have h1 : k.toNat = 0 := Int.toNat_eq_zero.2 hk
    rw [h1, pow_zero, one_div, ← zpow_natCast, Int.toNat_of_nonneg (by omega : 0 ≤ -k),
      zpow_neg, inv_inv]

/-- The exponent `ilog2 n d` is not above the base-2 logarithm of `n / d`. -/
theorem two_zpow_ilog2_le (n d : Nat) (hn : 0 < n) (hd : 0 < d) :
    (2 : ℚ) ^ ilog2 n d ≤ (n : ℚ) / (d : ℚ) := by
  have hdq : (0 : ℚ) < d := by exact_mod_cast hd
  obtain ⟨hn1, -⟩ := log2_spec n hn
  obtain ⟨-, hd2⟩ := log2_spec d hd
  have hn1q : (2 : ℚ) ^ (log2 n) ≤ n := by exact_mod_cast hn1
  have hd2q : (d : ℚ) ≤ 2 ^ (log2 d + 1) := by exact_mod_cast hd2.le
  unfold ilog2
  simp only
  split_ifs with hc
  · -- the quotient is below `2 ^ k`, and the exponent is `k - 1`
    have : ((log2 n : Int) - (log2 d : Int) - 1) = (log2 n : Int) - ((log2 d + 1 : Nat) : Int) := by
      push_cast
      ring
    rw [this, zpow_sub₀ (by norm_num : (2 : ℚ) ≠ 0), zpow_natCast, zpow_natCast]
    exact div_le_div₀ (by positivity) hn1q hdq hd2q
  · rw [le_div_iff₀ hdq, two_zpow_eq, div_mul_eq_mul_div, div_le_iff₀ (by positivity)]
    have hc' : d * 2 ^ ((log2 n : Int) - (log2 d : Int)).toNat ≤
        n * 2 ^ (-((log2 n : Int) - (log2 d : Int))).toNat := Nat.le_of_not_lt hc
    have : ((d * 2 ^ ((log2 n : Int) - (log2 d : Int)).toNat : Nat) : ℚ) ≤
        ((n * 2 ^ (-((log2 n : Int) - (log2 d : Int))).toNat : Nat) : ℚ) := by
      exact_mod_cast hc'
    push_cast at this
    linarith

/-- Rounding to nearest moves a fraction by at most one half. -/
theorem roundHalfEven_spec (n d : Nat) (hd : 0 < d) :
    |((roundHalfEven n d : Nat) : ℚ) - (n : ℚ) / (d : ℚ)| ≤ 1 / 2 := by
  have hdq : (0 : ℚ) < d := by exact_mod_cast hd
  have hdiv : (n : ℚ) / d = (n / d : Nat) + ((n % d : Nat) : ℚ) / d := by
    have h := Nat.div_add_mod n d
    have hq : (n : ℚ) = (d : ℚ) * ((n / d : Nat) : ℚ) + ((n % d : Nat) : ℚ) := by
      exact_mod_cast h.symm
    rw [hq]
    field_simp
    ring
  have hr : n % d < d := Nat.mod_lt n hd
  have hrq : ((n % d : Nat) : ℚ) < d := by exact_mod_cast hr
  have hr0 : (0 : ℚ) ≤ ((n % d : Nat) : ℚ) := by positivity
  rw [hdiv, abs_le]
  unfold roundHalfEven
  simp only
  split_ifs with h1 h2 h3
  · have h1q : (2 : ℚ) * ((n % d : Nat) : ℚ) < d := by exact_mod_cast h1
    constructor
    · have : ((n % d : Nat) : ℚ) / d ≤ 1 / 2 := by
        rw [div_le_iff₀ hdq]
        linarith
      linarith
    · have : (0 : ℚ) ≤ ((n % d : Nat) : ℚ) / d := by positivity
      linarith
  · have h2q : (d : ℚ) < 2 * ((n % d : Nat) : ℚ) := by exact_mod_cast h2
    push_cast
    constructor
    · have : ((n % d : Nat) : ℚ) / d ≤ 1 := by
        rw [div_le_iff₀ hdq]
        linarith
      linarith
    · have : (1 : ℚ) / 2 ≤ ((n % d : Nat) : ℚ) / d := by
        rw [le_div_iff₀ hdq]
        linarith
      linarith
  · have he : 2 * (n % d) = d := by omega
    have heq : (2 : ℚ) * ((n % d : Nat) : ℚ) = d := by exact_mod_cast he
    have : ((n % d : Nat) : ℚ) / d = 1 / 2 := by
      rw [div_eq_iff hdq.ne']
      linarith
    constructor <;> linarith
  · have he : 2 * (n % d) = d := by omega
    have heq : (2 : ℚ) * ((n % d : Nat) : ℚ) = d := by exact_mod_cast he
    have : ((n % d : Nat) : ℚ) / d = 1 / 2 := by
      rw [div_eq_iff hdq.ne']
      linarith
    push_cast
    constructor <;> linarith

/-- What `Dbl.ofFrac` guarantees: the significand is within one half of the
fraction scaled by the unit in the last place, and that unit is at most
`2 ^ (-52)` times the magnitude of the fraction. -/
theorem ofFrac_spec (n : Int) (d : Nat) (hd : 0 < d) :
    |((Dbl.ofFrac n d).man : ℚ) - ((n : ℚ) / (d : ℚ)) / (2 : ℚ) ^ (Dbl.ofFrac n d).exp| ≤ 1 / 2 ∧
    (n ≠ 0 → (2 : ℚ) ^ ((Dbl.ofFrac n d).exp + 52) ≤ |(n : ℚ) / (d : ℚ)|) := by
  have hdq : (0 : ℚ) < d := by exact_mod_cast hd
  by_cases hn : n = 0
  · subst hn
    simp [Dbl.ofFrac]
  · have ha : 0 < n.natAbs := Int.natAbs_pos.2 hn
    have hman : (Dbl.ofFrac n d).man = Int.sign n *
        ((roundHalfEven (n.natAbs * 2 ^ (-(ilog2 n.natAbs d - 52)).toNat)
          (d * 2 ^ (ilog2 n.natAbs d - 52).toNat) : Nat) : Int) := by
      simp [Dbl.ofFrac, hn]
    have hexp : (Dbl.ofFrac n d).exp = ilog2 n.natAbs d - 52 := by
      simp [Dbl.ofFrac, hn]
    have hD : 0 < d * 2 ^ (ilog2 n.natAbs d - 52).toNat := by positivity
    have hR := roundHalfEven_spec (n.natAbs * 2 ^ (-(ilog2 n.natAbs d - 52)).toNat)
      (d * 2 ^ (ilog2 n.natAbs d - 52).toNat) hD
    have hfrac : ((n.natAbs * 2 ^ (-(ilog2 n.natAbs d - 52)).toNat : Nat) : ℚ) /
        ((d * 2 ^ (ilog2 n.natAbs d - 52).toNat : Nat) : ℚ) =
        ((n.natAbs : ℚ) / d) / (2 : ℚ) ^ (ilog2 n.natAbs d - 52) := by
      rw [two_zpow_eq (ilog2 n.natAbs d - 52)]
      push_cast
      field_simp
    rw [hfrac] at hR
    have hlog := two_zpow_ilog2_le n.natAbs d ha hd
    have habs : |(n : ℚ) / (d : ℚ)| = (n.natAbs : ℚ) / d := by
      rw [abs_div, abs_of_pos hdq, Nat.cast_natAbs, Int.cast_abs]
    refine ⟨?_, fun _ => ?_⟩
    · rw [hman, hexp]
      rcases lt_or_gt_of_ne hn with hneg | hpos
      · have hs : Int.sign n = -1 := Int.sign_eq_neg_one_of_neg hneg
        have hnq : (n : ℚ) = -(n.natAbs : ℚ) := by
          rw [Nat.cast_natAbs, abs_of_neg hneg]
          push_cast
          ring
        rw [hs, hnq, neg_div, neg_div, ← abs_neg]
        push_cast
        convert hR using 2
        ring
      · have hs : Int.sign n = 1 := Int.sign_eq_one_of_pos hpos
        have hnq : (n : ℚ) = (n.natAbs : ℚ) := by
          rw [Nat.cast_natAbs, abs_of_pos hpos]
        rw [hs, hnq]
        push_cast
        convert hR using 2
        ring
    · rw [hexp, habs]
      have : ilog2 n.natAbs d - 52 + 52 = ilog2 n.natAbs d := by ring
      rw [this]
      exact hlog

/-- The value of a rounded fraction is within half a unit in the last place
of the fraction. -/
theorem ofFrac_toRat_sub (n : Int) (d : Nat) (hd : 0 < d) :
    |(Dbl.ofFrac n d).toRat - (n : ℚ) / (d : ℚ)| ≤ (2 : ℚ) ^ (Dbl.ofFrac n d).exp / 2 := by
  have h := (ofFrac_spec n d hd).1
  have hp : (0 : ℚ) < (2 : ℚ) ^ (Dbl.ofFrac n d).exp := zpow_pos (by norm_num) _
  have : (Dbl.ofFrac n d).toRat - (n : ℚ) / (d : ℚ) =
      (((Dbl.ofFrac n d).man : ℚ) - ((n : ℚ) / (d : ℚ)) / (2 : ℚ) ^ (Dbl.ofFrac n d).exp) *
        (2 : ℚ) ^ (Dbl.ofFrac n d).exp := by
    unfold Dbl.toRat
    field_simp
    ring
  rw [this, abs_mul, abs_of_pos hp]
  calc _ ≤ 1 / 2 * (2 : ℚ) ^ (Dbl.ofFrac n d).exp := mul_le_mul_of_nonneg_right h hp.le
    _ = _ := by ring

/-- Rounding does not cross a multiple of the unit in the last place, from below. -/
theorem ofFrac_toRat_le (n : Int) (d : Nat) (hd : 0 < d) (c : Int)
    (h : (n : ℚ) / (d : ℚ) ≤ (c : ℚ) * (2 : ℚ) ^ (Dbl.ofFrac n d).exp) :
    (Dbl.ofFrac n d).toRat ≤ (c : ℚ) * (2 : ℚ) ^ (Dbl.ofFrac n d).exp := by
  have hs := (abs_le.1 (ofFrac_spec n d hd).1).2
  have hp : (0 : ℚ) < (2 : ℚ) ^ (Dbl.ofFrac n d).exp := zpow_pos (by norm_num) _
  have h1 : ((n : ℚ) / (d : ℚ)) / (2 : ℚ) ^ (Dbl.ofFrac n d).exp ≤ c := by
    rw [div_le_iff₀ hp]
    exact h
  have h2 : ((Dbl.ofFrac n d).man : ℚ) < (c : ℚ) + 1 := by linarith
  have h3 : (Dbl.ofFrac n d).man < c + 1 := by exact_mod_cast h2
  have h4 : ((Dbl.ofFrac n d).man : ℚ) ≤ c := by exact_mod_cast Int.lt_add_one_iff.1 h3
  unfold Dbl.toRat
  exact mul_le_mul_of_nonneg_right h4 hp.le

/-- Rounding does not cross a multiple of the unit in the last place, from above. -/
theorem le_ofFrac_toRat (n : Int) (d : Nat) (hd : 0 < d) (c : Int)
    (h : (c : ℚ) * (2 : ℚ) ^ (Dbl.ofFrac n d).exp ≤ (n : ℚ) / (d : ℚ)) :
    (c : ℚ) * (2 : ℚ) ^ (Dbl.ofFrac n d).exp ≤ (Dbl.ofFrac n d).toRat := by
  have hs := (abs_le.1 (ofFrac_spec n d hd).1).1
  have hp : (0 : ℚ) < (2 : ℚ) ^ (Dbl.ofFrac n d).exp := zpow_pos (by norm_num) _
  have h1 : (c : ℚ) ≤ ((n : ℚ) / (d : ℚ)) / (2 : ℚ) ^ (Dbl.ofFrac n d).exp := by
    rw [le_div_iff₀ hp]
    exact h
  have h2 : (c : ℚ) - 1 < ((Dbl.ofFrac n d).man : ℚ) := by linarith
  have h3 : c - 1 < (Dbl.ofFrac n d).man := by exact_mod_cast h2
  have h4 : (c : ℚ) ≤ ((Dbl.ofFrac n d).man : ℚ) := by exact_mod_cast Int.sub_one_lt_iff.1 h3
  unfold Dbl.toRat
  exact mul_le_mul_of_nonneg_right h4 hp.le

/-- The function `Dbl.floor` is the floor of the value. -/
theorem Dbl.floor_eq (x : Dbl) : x.floor = ⌊x.toRat⌋ := by
  have h := Rat.floor_intCast_div_natCast (x.man * 2 ^ x.exp.toNat) (2 ^ (-x.exp).toNat)
  have hv : x.toRat = ((x.man * 2 ^ x.exp.toNat : Int) : ℚ) / ((2 ^ (-x.exp).toNat : Nat) : ℚ) := by
    unfold Dbl.toRat
    rw [two_zpow_eq x.exp]
    push_cast
    ring
  rw [hv, h]
  unfold Dbl.floor
  push_cast
  rfl

/-- The function `Dbl.round` is the floor of the value plus one half. -/
theorem Dbl.round_eq (x : Dbl) : x.round = ⌊x.toRat + 1 / 2⌋ := by
  have h := Rat.floor_intCast_div_natCast (2 * (x.man * 2 ^ x.exp.toNat) + 2 ^ (-x.exp).toNat)
    (2 * 2 ^ (-x.exp).toNat)
  have hv : x.toRat + 1 / 2 =
      ((2 * (x.man * 2 ^ x.exp.toNat) + 2 ^ (-x.exp).toNat : Int) : ℚ) /
        ((2 * 2 ^ (-x.exp).toNat : Nat) : ℚ) := by
    unfold Dbl.toRat
    rw [two_zpow_eq x.exp]
    push_cast
    field_simp
    ring
  rw [hv, h]
  unfold Dbl.round
  push_cast
  rfl

/-- A power of 2 at or above the unit in the last place is a whole multiple of it. -/
theorem two_pow_toNat_mul_zpow (e j : Int) (h : e ≤ j) :
    (((2 : Int) ^ (j - e).toNat : Int) : ℚ) * (2 : ℚ) ^ e = (2 : ℚ) ^ j := by
  push_cast
  rw [← zpow_natCast, Int.toNat_of_nonneg (by omega), ← zpow_add₀ (by norm_num : (2 : ℚ) ≠ 0)]
  congr 1
  ring

/-- The fraction handed to `Dbl.ofFrac` by `Dbl.div` is the quotient. -/
theorem div_frac (a b : Int) (hb : b ≠ 0) :
    ((a * Int.sign b : Int) : ℚ) / (b.natAbs : ℚ) = (a : ℚ) / (b : ℚ) := by
  have hbq : (b : ℚ) ≠ 0 := by exact_mod_cast hb
  rcases lt_or_gt_of_ne hb with hneg | hpos
  · rw [Int.sign_eq_neg_one_of_neg hneg, Nat.cast_natAbs, abs_of_neg hneg]
    push_cast
    field_simp
  · rw [Int.sign_eq_one_of_pos hpos, Nat.cast_natAbs, abs_of_pos hpos]
    push_cast
    field_simp

/-- An exponent bound from a bound on the value: if `2 ^ (e + 52) ≤ z < 2 ^ j`
then `e + 52 < j`. -/
theorem exp_lt_of_lt {e j : Int} {z : ℚ} (h1 : (2 : ℚ) ^ (e + 52) ≤ z) (h2 : z < (2 : ℚ) ^ j) :
    e + 52 < j :=
  (zpow_lt_zpow_iff_right₀ (by norm_num : (1 : ℚ) < 2)).1 (lt_of_le_of_lt h1 h2)

/-- The binary64 quotient by the number of milliseconds in a day falls on the
same side of 0, 1 and 2 as the exact quotient. -/
theorem div_day_class (a : Int) :
    ((a : ℚ) / 86400000 < 0 → (Dbl.div a 86400000).toRat < 0) ∧
    (0 ≤ (a : ℚ) / 86400000 → (a : ℚ) / 86400000 < 1 →
      0 ≤ (Dbl.div a 86400000).toRat ∧ (Dbl.div a 86400000).toRat < 1) ∧
    (1 ≤ (a : ℚ) / 86400000 → (a : ℚ) / 86400000 < 2 →
      1 ≤ (Dbl.div a 86400000).toRat ∧ (Dbl.div a 86400000).toRat < 2) ∧
    (2 ≤ (a : ℚ) / 86400000 → 2 ≤ (Dbl.div a 86400000).toRat) := by
  have hdiv : Dbl.div a 86400000 = Dbl.ofFrac a 86400000 := by
    unfold Dbl.div
    have h1 : Int.sign (86400000 : Int) = 1 := by decide
    have h2 : (86400000 : Int).natAbs = 86400000 := by decide
    rw [h1, h2, mul_one]
  rw [hdiv]
  have hd : 0 < 86400000 := by norm_num
  have hcast : (((86400000 : Nat) : ℚ)) = 86400000 := by norm_num
  have hspec := ofFrac_spec a 86400000 hd
  have hle := ofFrac_toRat_le a 86400000 hd
  have hge := le_ofFrac_toRat a 86400000 hd
  rw [hcast] at hspec hle hge
  set x := Dbl.ofFrac a 86400000 with hx
  have hp : (0 : ℚ) < (2 : ℚ) ^ x.exp := zpow_pos (by norm_num) _
  have h0 : 0 ≤ (a : ℚ) / 86400000 → 0 ≤ x.toRat := by
    intro hz
    have := hge 0 (by simpa using hz)
    simpa using this
  refine ⟨?_, ?_, ?_, ?_⟩
  · intro hz
    have ha : a ≠ 0 := by
      rintro rfl
      simp at hz
    have h1 := hspec.2 ha
    rw [abs_of_neg hz] at h1
    have h2 : (2 : ℚ) ^ x.exp ≤ (2 : ℚ) ^ (x.exp + 52) :=
      zpow_le_zpow_right₀ (by norm_num) (by omega)
    have h3 := hle (-1) (by push_cast; linarith)
    push_cast at h3
    linarith
  · intro hz0 hz1
    refine ⟨h0 hz0, ?_⟩
    by_cases ha : a = 0
    · subst ha
      simp [hx, Dbl.ofFrac, Dbl.toRat]
    · have h1 := hspec.2 ha
      rw [abs_of_nonneg hz0] at h1
      have he : x.exp + 52 < 0 := exp_lt_of_lt h1 (by simpa using hz1)
      have hgrid := two_pow_toNat_mul_zpow x.exp 0 (by omega)
      rw [zpow_zero] at hgrid
      have hsmall : (2 : ℚ) ^ x.exp ≤ (2 : ℚ) ^ (-53 : Int) :=
        zpow_le_zpow_right₀ (by norm_num) (by omega)
      have hb : (2 : ℚ) ^ x.exp ≤ 1 / 86400000 := le_trans hsmall (by norm_num)
      have haz : (a : ℚ) ≤ 86400000 - 1 := by
        have : a < 86400000 := by
          have h := (div_lt_one (by norm_num : (0 : ℚ) < 86400000)).1 hz1
          exact_mod_cast h
        have : a ≤ 86400000 - 1 := by omega
        exact_mod_cast this
      have hz : (a : ℚ) / 86400000 ≤ 1 - 1 / 86400000 := by
        rw [div_le_iff₀ (by norm_num)]
        linarith
      have h3 := hle ((2 : Int) ^ (0 - x.exp).toNat - 1) (by
        push_cast
        push_cast at hgrid
        rw [sub_mul, hgrid]
        linarith)
      push_cast at h3 hgrid
      rw [sub_mul, hgrid] at h3
      linarith
  · intro hz1 hz2
    have ha : a ≠ 0 := by
      rintro rfl
      norm_num at hz1
    have h1 := hspec.2 ha
    rw [abs_of_nonneg (by linarith)] at h1
    have he : x.exp + 52 < 1 := exp_lt_of_lt h1 (by simpa using hz2)
    have hgrid0 := two_pow_toNat_mul_zpow x.exp 0 (by omega)
    have hgrid1 := two_pow_toNat_mul_zpow x.exp 1 (by omega)
    rw [zpow_zero] at hgrid0
    rw [zpow_one] at hgrid1
    have hsmall : (2 : ℚ) ^ x.exp ≤ (2 : ℚ) ^ (-52 : Int) :=
      zpow_le_zpow_right₀ (by norm_num) (by omega)
    have hb : (2 : ℚ) ^ x.exp ≤ 1 / 86400000 := le_trans hsmall (by norm_num)
    have haz : (a : ℚ) ≤ 2 * 86400000 - 1 := by
      have : a < 2 * 86400000 := by
        have h := (div_lt_iff₀ (by norm_num : (0 : ℚ) < 86400000)).1 hz2
        exact_mod_cast h
      have : a ≤ 2 * 86400000 - 1 := by omega
      exact_mod_cast this
    have hz : (a : ℚ) / 86400000 ≤ 2 - 1 / 86400000 := by
      rw [div_le_iff₀ (by norm_num)]
      linarith
    constructor
    · have h3 := hge ((2 : Int) ^ (0 - x.exp).toNat) (by
        rw [hgrid0]
        exact hz1)
      rw [hgrid0] at h3
      exact h3
    · have h3 := hle ((2 : Int) ^ (1 - x.exp).toNat - 1) (by
        push_cast
        push_cast at hgrid1
        rw [sub_mul, hgrid1]
        linarith)
      push_cast at h3 hgrid1
      rw [sub_mul, hgrid1] at h3
      linarith
  · intro hz2
    have ha : a ≠ 0 := by
      rintro rfl
      norm_num at hz2
    have h1 := hspec.2 ha
    rw [abs_of_nonneg (by linarith)] at h1
    rcases le_or_lt x.exp 1 with he | he
    · have hgrid1 := two_pow_toNat_mul_zpow x.exp 1 he
      rw [zpow_one] at hgrid1
      have h3 := hge ((2 : Int) ^ (1 - x.exp).toNat) (by
        rw [hgrid1]
        exact hz2)
      rw [hgrid1] at h3
      exact h3
    · have h2 : (2 : ℚ) ^ x.exp ≤ (2 : ℚ) ^ (x.exp + 52) :=
        zpow_le_zpow_right₀ (by norm_num) (by omega)
      have h3 := hge 1 (by push_cast; linarith)
      have h4 : (2 : ℚ) ^ (1 : Int) ≤ (2 : ℚ) ^ x.exp :=
        zpow_le_zpow_right₀ (by norm_num) (by omega)
      rw [zpow_one] at h4
      push_cast at h3
      linarith

/-- The day count of `calcStreak` is 0, or 1, exactly when the floor of the
exact quotient is. -/
theorem floor_div_day (a : Int) :
    ((Dbl.div a 86400000).floor = 0 ↔ ⌊(a : ℚ) / 86400000⌋ = 0) ∧
    ((Dbl.div a 86400000).floor = 1 ↔ ⌊(a : ℚ) / 86400000⌋ = 1) := by
  obtain ⟨hneg, h01, h12, h2⟩ := div_day_class a
  rw [Dbl.floor_eq]
  simp only [Int.floor_eq_iff, Int.cast_zero, Int.cast_one, zero_add]
  rcases lt_or_le ((a : ℚ) / 86400000) 0 with hz | hz
  · have hy := hneg hz
    constructor <;> constructor <;> intro h <;> linarith [h.1, h.2]
  · rcases lt_or_le ((a : ℚ) / 86400000) 1 with hz1 | hz1
    · have hy := h01 hz hz1
      constructor <;> constructor <;> intro h <;>
        first
          | exact ⟨hz, hz1⟩
          | exact ⟨hy.1, hy.2⟩
          | linarith [h.1, h.2, hy.1, hy.2]
    · rcases lt_or_le ((a : ℚ) / 86400000) 2 with hz2 | hz2
      · have hy := h12 hz1 hz2
        constructor <;> constructor <;> intro h <;>
          first
            | exact ⟨hz1, by linarith⟩
            | exact ⟨hy.1, by linarith [hy.2]⟩
            | linarith [h.1, h.2, hy.1, hy.2]
      · have hy := h2 hz2
        constructor <;> constructor <;> intro h <;> linarith [h.1, h.2]

/-! ## Streak -/

/-- C6: with the clock reading passed as `now` and times in integer
milliseconds, `calcStreak` gives 1 for an absent `lastQuizDate` whatever the
current streak; otherwise, with `diffDays` the floor of
`(now - last) / 86400000`, it gives the current streak for `diffDays = 0`, one
more for `diffDays = 1` and 1 for every other value; in particular 1 whenever
`last` is later than `now`. -/
theorem calcStreak_spec (now currentStreak : Int) :
    calcStreak now none currentStreak = 1 ∧
    (∀ last : Int,
      calcStreak now (some last) currentStreak =
        if ⌊((now - last : Int) : ℚ) / 86400000⌋ = 0 then currentStreak
        else if ⌊((now - last : Int) : ℚ) / 86400000⌋ = 1 then currentStreak + 1
        else 1) ∧
    (∀ last : Int, now < last → calcStreak now (some last) currentStreak = 1) := by
  have hmain : ∀ last : Int,
      calcStreak now (some last) currentStreak =
        if ⌊((now - last : Int) : ℚ) / 86400000⌋ = 0 then currentStreak
        else if ⌊((now - last : Int) : ℚ) / 86400000⌋ = 1 then currentStreak + 1
        else 1 := by
    intro last
    have hday : (1000 * 60 * 60 * 24 : Int) = 86400000 := by norm_num
    obtain ⟨h0, h1⟩ := floor_div_day (now - last)
    simp only [calcStreak, hday]
    by_cases hf0 : ⌊((now - last : Int) : ℚ) / 86400000⌋ = 0
    · rw [if_pos (h0.2 hf0), if_pos hf0]
    · rw [if_neg (fun h => hf0 (h0.1 h)), if_neg hf0]
      by_cases hf1 : ⌊((now - last : Int) : ℚ) / 86400000⌋ = 1
      · rw [if_pos (h1.2 hf1), if_pos hf1]
      · rw [if_neg (fun h => hf1 (h1.1 h)), if_neg hf1]
  refine ⟨rfl, hmain, ?_⟩
  intro last hlt
  rw [hmain]
  have hneg : ((now - last : Int) : ℚ) / 86400000 < 0 := by
    apply div_neg_of_neg_of_pos _ (by norm_num)
    exact_mod_cast (by omega : now - last < 0)
  have hfl : ⌊((now - last : Int) : ℚ) / 86400000⌋ < 0 := by
    rw [Int.floor_lt]
    exact_mod_cast hneg
  rw [if_neg (by omega), if_neg (by omega)]

/-- C6, witness: a `lastQuizDate` four seconds ahead of the clock resets a
streak of 4 to 1. -/
theorem calcStreak_spec_witness :
    calcStreak 1000 (some 5000) 4 = 1 :=
  (calcStreak_spec 1000 4).2.2 5000 (by decide)

/-! ## Percentage -/

/-- The fraction handed to `Dbl.ofFrac` by `Dbl.mulInt` is the product. -/
theorem mulInt_frac (x : Dbl) (k : Int) :
    ((x.man * k * 2 ^ x.exp.toNat : Int) : ℚ) / ((2 ^ (-x.exp).toNat : Nat) : ℚ) =
      x.toRat * (k : ℚ) := by
  unfold Dbl.toRat
  rw [two_zpow_eq x.exp]
  push_cast
  ring

/-- The rounding error of a fraction below `2 ^ j` in magnitude is at most
`2 ^ (j - 54)`. -/
theorem ofFrac_toRat_sub_le (n : Int) (d : Nat) (hd : 0 < d) (j : Int)
    (hz : |(n : ℚ) / (d : ℚ)| < (2 : ℚ) ^ j) :
    |(Dbl.ofFrac n d).toRat - (n : ℚ) / (d : ℚ)| ≤ (2 : ℚ) ^ (j - 54) := by
  by_cases hn : n = 0
  · subst hn
    simp only [Dbl.ofFrac, Dbl.toRat]
    simp
    positivity
  · have h1 := (ofFrac_spec n d hd).2 hn
    have he : (Dbl.ofFrac n d).exp + 52 < j := exp_lt_of_lt h1 hz
    have h2 := ofFrac_toRat_sub n d hd
    have h3 : (2 : ℚ) ^ (Dbl.ofFrac n d).exp ≤ (2 : ℚ) ^ (j - 53) :=
      zpow_le_zpow_right₀ (by norm_num) (by omega)
    have h4 : (2 : ℚ) ^ (j - 53) = 2 * (2 : ℚ) ^ (j - 54) := by
      have : j - 53 = 1 + (j - 54) := by ring
      rw [this, zpow_add₀ (by norm_num : (2 : ℚ) ≠ 0), zpow_one]
    linarith

/-- Rounding a fraction below `2 ^ j` in magnitude does not cross a multiple
of `2 ^ k` from below, as long as `j ≤ k + 53`. -/
theorem ofFrac_toRat_le_grid (n : Int) (d : Nat) (hd : 0 < d) (c k j : Int)
    (hz : |(n : ℚ) / (d : ℚ)| < (2 : ℚ) ^ j) (hk : j ≤ k + 53)
    (h : (n : ℚ) / (d : ℚ) ≤ (c : ℚ) * (2 : ℚ) ^ k) :
    (Dbl.ofFrac n d).toRat ≤ (c : ℚ) * (2 : ℚ) ^ k := by
  by_cases hn : n = 0
  · subst hn
    have : (Dbl.ofFrac 0 d).toRat = 0 := by simp [Dbl.ofFrac, Dbl.toRat]
    rw [this]
    simpa using h
  · have h1 := (ofFrac_spec n d hd).2 hn
    have he : (Dbl.ofFrac n d).exp + 52 < j := exp_lt_of_lt h1 hz
    have hgrid := two_pow_toNat_mul_zpow (Dbl.ofFrac n d).exp k (by omega)
    have h2 := ofFrac_toRat_le n d hd (c * (2 : Int) ^ (k - (Dbl.ofFrac n d).exp).toNat) (by
      rw [Int.cast_mul, mul_assoc, hgrid]
      exact h)
    rw [Int.cast_mul, mul_assoc, hgrid] at h2
    exact h2

/-- Rounding a non-negative fraction gives a non-negative value. -/
theorem ofFrac_toRat_nonneg (n : Int) (d : Nat) (hd : 0 < d) (h : 0 ≤ (n : ℚ) / (d : ℚ)) :
    0 ≤ (Dbl.ofFrac n d).toRat := by
  have := le_ofFrac_toRat n d hd 0 (by simpa using h)
  simpa using this

/-- The binary64 value of `score / total * 100` for `0 ≤ score ≤ total`: between 0
and 100, and within `164 * 2 ^ (-53)` of the exact value. -/
theorem percentage_value (s t : Int) (h0 : 0 ≤ s) (hst : s ≤ t) (ht : 0 < t) :
    0 ≤ ((Dbl.div s t).mulInt 100).toRat ∧ ((Dbl.div s t).mulInt 100).toRat ≤ 100 ∧
    |((Dbl.div s t).mulInt 100).toRat - (s : ℚ) / (t : ℚ) * 100| ≤ 164 * (2 : ℚ) ^ (-53 : Int) := by
  have htq : (0 : ℚ) < t := by exact_mod_cast ht
  have hq0 : 0 ≤ (s : ℚ) / (t : ℚ) := div_nonneg (by exact_mod_cast h0) htq.le
  have hq1 : (s : ℚ) / (t : ℚ) ≤ 1 := by
    rw [div_le_one htq]
    exact_mod_cast hst
  have hd : 0 < t.natAbs := Int.natAbs_pos.2 ht.ne'
  have hfrac := div_frac s t ht.ne'
  -- the quotient
  have hy1 : 0 ≤ (Dbl.div s t).toRat ∧ (Dbl.div s t).toRat ≤ 1 ∧
      |(Dbl.div s t).toRat - (s : ℚ) / (t : ℚ)| ≤ (2 : ℚ) ^ (-53 : Int) := by
    unfold Dbl.div
    have hz : |((s * Int.sign t : Int) : ℚ) / (t.natAbs : ℚ)| < (2 : ℚ) ^ (1 : Int) := by
      rw [hfrac, abs_of_nonneg hq0, zpow_one]
      linarith
    refine ⟨ofFrac_toRat_nonneg _ _ hd (by rw [hfrac]; exact hq0), ?_, ?_⟩
    · have := ofFrac_toRat_le_grid _ _ hd 1 0 1 hz (by norm_num) (by
        rw [hfrac]
        simpa using hq1)
      simpa using this
    · have := ofFrac_toRat_sub_le _ _ hd 1 hz
      rw [hfrac] at this
      exact this
  obtain ⟨hy10, hy11, hy1e⟩ := hy1
  -- the product
  have hd2 : 0 < 2 ^ (-(Dbl.div s t).exp).toNat := by positivity
  have hfrac2 := mulInt_frac (Dbl.div s t) 100
  have hz2 : |(((Dbl.div s t).man * 100 * 2 ^ (Dbl.div s t).exp.toNat : Int) : ℚ) /
      ((2 ^ (-(Dbl.div s t).exp).toNat : Nat) : ℚ)| < (2 : ℚ) ^ (7 : Int) := by
    rw [hfrac2, abs_of_nonneg (by positivity)]
    norm_num
    linarith
  have hy2 : 0 ≤ ((Dbl.div s t).mulInt 100).toRat ∧ ((Dbl.div s t).mulInt 100).toRat ≤ 100 ∧
      |((Dbl.div s t).mulInt 100).toRat - (Dbl.div s t).toRat * 100| ≤ (2 : ℚ) ^ (-47 : Int) := by
    unfold Dbl.mulInt
    refine ⟨ofFrac_toRat_nonneg _ _ hd2 (by rw [hfrac2]; positivity), ?_, ?_⟩
    · have := ofFrac_toRat_le_grid _ _ hd2 25 2 7 hz2 (by norm_num) (by
        rw [hfrac2]
        norm_num
        linarith)
      norm_num at this
      linarith
    · have := ofFrac_toRat_sub_le _ _ hd2 7 hz2
      rw [hfrac2] at this
      norm_num at this ⊢
      exact this
  obtain ⟨hy20, hy21, hy2e⟩ := hy2
  refine ⟨hy20, hy21, ?_⟩
  have hsplit : ((Dbl.div s t).mulInt 100).toRat - (s : ℚ) / (t : ℚ) * 100 =
      (((Dbl.div s t).mulInt 100).toRat - (Dbl.div s t).toRat * 100) +
        100 * ((Dbl.div s t).toRat - (s : ℚ) / (t : ℚ)) := by ring
  rw [hsplit]
  have h100 : |100 * ((Dbl.div s t).toRat - (s : ℚ) / (t : ℚ))| ≤ 100 * (2 : ℚ) ^ (-53 : Int) := by
    rw [abs_mul, abs_of_pos (by norm_num : (0 : ℚ) < 100)]
    exact mul_le_mul_of_nonneg_left hy1e (by norm_num)
  have h47 : (2 : ℚ) ^ (-47 : Int) = 64 * (2 : ℚ) ^ (-53 : Int) := by norm_num
  calc _ ≤ _ + _ := abs_add _ _
    _ ≤ (2 : ℚ) ^ (-47 : Int) + 100 * (2 : ℚ) ^ (-53 : Int) := add_le_add hy2e h100
    _ = _ := by rw [h47]; ring

/-- The percentage of `0 ≤ score ≤ total`: an integer from 0 to 100; for
`total ≤ 2 ^ 44` it is within one half of the exact value, hence the exact
value rounded half up unless that value is an integer plus one half. -/
theorem percentageOf_spec (s t : Int) (h0 : 0 ≤ s) (hst : s ≤ t) (ht : 0 < t) :
    0 ≤ percentageOf s t ∧ percentageOf s t ≤ 100 ∧
    (t ≤ 2 ^ 44 →
      |(percentageOf s t : ℚ) - (s : ℚ) / (t : ℚ) * 100| ≤ 1 / 2 ∧
      (percentageOf s t = ⌊(s : ℚ) / (t : ℚ) * 100 + 1 / 2⌋ ∨
        (percentageOf s t : ℚ) + 1 / 2 = (s : ℚ) / (t : ℚ) * 100)) := by
  obtain ⟨hy0, hy100, hyerr⟩ := percentage_value s t h0 hst ht
  have hp : percentageOf s t = ⌊((Dbl.div s t).mulInt 100).toRat + 1 / 2⌋ := by
    unfold percentageOf
    exact Dbl.round_eq _
  have hp1 : (percentageOf s t : ℚ) ≤ ((Dbl.div s t).mulInt 100).toRat + 1 / 2 := by
    rw [hp]
    exact Int.floor_le _
  have hp2 : ((Dbl.div s t).mulInt 100).toRat + 1 / 2 < (percentageOf s t : ℚ) + 1 := by
    rw [hp]
    exact Int.lt_floor_add_one _
  refine ⟨?_, ?_, ?_⟩
  · rw [hp, Int.floor_nonneg]
    linarith
  · have : percentageOf s t < 101 := by
      rw [hp, Int.floor_lt]
      push_cast
      linarith
    omega
  · intro ht44
    have htq : (0 : ℚ) < t := by exact_mod_cast ht
    have ht44q : (t : ℚ) ≤ 2 ^ 44 := by exact_mod_cast ht44
    obtain ⟨he1, he2⟩ := abs_le.1 hyerr
    have hx : (s : ℚ) / (t : ℚ) * 100 * (t : ℚ) = 100 * (s : ℚ) := by
      field_simp
      ring
    have hdelta : 2 * (t : ℚ) * (164 * (2 : ℚ) ^ (-53 : Int)) < 1 := by
      have : (164 * (2 : ℚ) ^ (-53 : Int)) * (2 * 2 ^ 44) < 1 := by norm_num
      nlinarith
    -- the integer `2 * t * p - 200 * s` lies between `-t` and `t`
    have hup : 2 * t * percentageOf s t - 200 * s < t + 1 := by
      have : ((2 * t * percentageOf s t - 200 * s : Int) : ℚ) < ((t + 1 : Int) : ℚ) := by
        push_cast
        nlinarith
      exact_mod_cast this
    have hlo : -t - 1 < 2 * t * percentageOf s t - 200 * s := by
      have : ((-t - 1 : Int) : ℚ) < ((2 * t * percentageOf s t - 200 * s : Int) : ℚ) := by
        push_cast
        nlinarith
      exact_mod_cast this
    have hupq : ((2 * t * percentageOf s t - 200 * s : Int) : ℚ) ≤ (t : ℚ) := by
      exact_mod_cast (by omega : 2 * t * percentageOf s t - 200 * s ≤ t)
    have hloq : -(t : ℚ) ≤ ((2 * t * percentageOf s t - 200 * s : Int) : ℚ) := by
      exact_mod_cast (by omega : -t ≤ 2 * t * percentageOf s t - 200 * s)
    push_cast at hupq hloq
    have hle : (percentageOf s t : ℚ) - (s : ℚ) / (t : ℚ) * 100 ≤ 1 / 2 := by
      rw [← sub_nonneg]
      have : 0 ≤ (1 / 2 - ((percentageOf s t : ℚ) - (s : ℚ) / (t : ℚ) * 100)) * (2 * t) := by
        have e : (1 / 2 - ((percentageOf s t : ℚ) - (s : ℚ) / (t : ℚ) * 100)) * (2 * t) =
            t - (2 * t * percentageOf s t - 2 * ((s : ℚ) / (t : ℚ) * 100 * t)) := by ring
        rw [e, hx]
        linarith
      exact nonneg_of_mul_nonneg_left this (by linarith)
    have hge : -(1 / 2) ≤ (percentageOf s t : ℚ) - (s : ℚ) / (t : ℚ) * 100 := by
      rw [← sub_nonneg]
      have : 0 ≤ ((percentageOf s t : ℚ) - (s : ℚ) / (t : ℚ) * 100 - -(1 / 2)) * (2 * t) := by
        have e : ((percentageOf s t : ℚ) - (s : ℚ) / (t : ℚ) * 100 - -(1 / 2)) * (2 * t) =
            (2 * t * percentageOf s t - 2 * ((s : ℚ) / (t : ℚ) * 100 * t)) + t := by ring
        rw [e, hx]
        linarith
      exact nonneg_of_mul_nonneg_left this (by linarith)
    refine ⟨abs_le.2 ⟨hge, hle⟩, ?_⟩
    rcases eq_or_lt_of_le hge with heq | hlt
    · right
      linarith
    · left
      symm
      rw [Int.floor_eq_iff]
      constructor <;> linarith


/-- C4 (as amended): the attempt a saved submission appends stores
`Math.round` of the binary64 product `score / total * 100`. For
`0 ≤ score ≤ total` it is an integer from 0 to 100, and for `total ≤ 2 ^ 44`
it lies within one half of the exact value: it is the exact value rounded half
up, unless the exact value is an integer plus one half, where it may be the
integer below. -/
theorem postQuizHistory_percentage (clock : Clock) (req : QuizRequest) (u : User)
    (body : QuizResult)
    (h : (postQuizHistory clock req (some u)).1 = QuizReply.saved body) :
    ∃ u' a,
      (postQuizHistory clock req (some u)).2 = some u' ∧
      u'.quizHistory = u.quizHistory ++ [a] ∧
      req.score = some a.score ∧ req.total = some a.total ∧
      a.percentage = ((Dbl.div a.score a.total).mulInt 100).round ∧
      (0 ≤ a.score → a.score ≤ a.total →
        0 ≤ a.percentage ∧ a.percentage ≤ 100 ∧
        (a.total ≤ 2 ^ 44 →
          |(a.percentage : ℚ) - (a.score : ℚ) / (a.total : ℚ) * 100| ≤ 1 / 2 ∧
          (a.percentage = ⌊(a.score : ℚ) / (a.total : ℚ) * 100 + 1 / 2⌋ ∨
            (a.percentage : ℚ) + 1 / 2 = (a.score : ℚ) / (a.total : ℚ) * 100))) := by
  obtain ⟨email, subject, score, total, hreq, -, -, htotal, heq⟩ := postQuizHistory_saved_inv h
  refine ⟨_, ⟨subject, score, total, percentageOf score total,
    calcXP (percentageOf score total), clock.pushNow⟩, congrArg Prod.snd heq, rfl, ?_, ?_, rfl, ?_⟩
  · rw [hreq]
  · rw [hreq]
  · intro h0 hst
    have ht : (0 : Int) < total := by
      show (0 : Int) < total
      have h0' : (0 : Int) ≤ score := h0
      have hst' : score ≤ total := hst
      omega
    exact percentageOf_spec score total h0 hst ht

/-- C4, witness: 16 out of 20 is stored as a percentage between 0 and 100
within one half of the exact 80. -/
theorem postQuizHistory_percentage_witness :
    ∃ u' a,
      (postQuizHistory sampleClock sampleRequest (some sampleUser)).2 = some u' ∧
      u'.quizHistory = sampleUser.quizHistory ++ [a] ∧
      a.score = 16 ∧ a.total = 20 ∧
      0 ≤ a.percentage ∧ a.percentage ≤ 100 ∧
      |(a.percentage : ℚ) - (16 : ℚ) / (20 : ℚ) * 100| ≤ 1 / 2 := by
  obtain ⟨u', a, h1, h2, h3, h4, -, h6⟩ :=
    postQuizHistory_percentage sampleClock sampleRequest sampleUser sampleBody (by decide)
  have hs : a.score = 16 := (Option.some.inj h3).symm
  have ht : a.total = 20 := (Option.some.inj h4).symm
  obtain ⟨h7, h8, h9⟩ := h6 (by rw [hs]; decide) (by rw [hs, ht]; decide)
  have h10 := (h9 (by rw [ht]; decide)).1
  rw [hs, ht] at h10
  exact ⟨u', a, h1, h2, hs, ht, h7, h8, by simpa using h10⟩

/-- C4, counterexample: a submission with score 25 and total 20 passes
validation and stores the percentage 125, above 100; and 23 out of 40 stores
57, although the exact value 57.5 rounded half up is 58 (the binary64 product
is 57.49999999999999). -/
theorem postQuizHistory_percentage_out_of_range :
    (postQuizHistory sampleClock ⟨some "asha@upsc.com", some "Polity", some 25, some 20⟩
        (some sampleUser)).2.map (fun u' => u'.quizHistory.map (fun a => a.percentage)) =
      some [125] ∧
    (postQuizHistory sampleClock ⟨some "asha@upsc.com", some "Polity", some 23, some 40⟩
        (some sampleUser)).2.map (fun u' => u'.quizHistory.map (fun a => a.percentage)) =
      some [57] ∧
    ⌊(23 : ℚ) / 40 * 100 + 1 / 2⌋ = 58 := by
  refine ⟨by decide, by decide, ?_⟩
  rw [Int.floor_eq_iff]
  norm_num

/-! ## XP bands, ranks and level bounds -/

/-- C11: `calcXP` maps a percentage of 80 or more to 100, one from 60 to 79 to
70, one from 40 to 59 to 40 and anything below 40 to 20; with the eight sample
values. -/
theorem calcXP_bands :
    (∀ p : Int, (80 ≤ p → calcXP p = 100) ∧ (60 ≤ p → p < 80 → calcXP p = 70) ∧
      (40 ≤ p → p < 60 → calcXP p = 40) ∧ (p < 40 → calcXP p = 20)) ∧
    calcXP 100 = 100 ∧ calcXP 80 = 100 ∧ calcXP 79 = 70 ∧ calcXP 60 = 70 ∧
    calcXP 59 = 40 ∧ calcXP 40 = 40 ∧ calcXP 39 = 20 ∧ calcXP 0 = 20 := by
  refine ⟨fun p => ⟨?_, ?_, ?_, ?_⟩, by decide, by decide, by decide, by decide, by decide,
    by decide, by decide, by decide⟩
  · intro h
    simp [calcXP, h]
  · intro h1 h2
    unfold calcXP
    rw [if_neg (by omega), if_pos (by omega)]
  · intro h1 h2
    unfold calcXP
    rw [if_neg (by omega), if_neg (by omega), if_pos (by omega)]
  · intro h
    unfold calcXP
    rw [if_neg (by omega), if_neg (by omega), if_neg (by omega)]

/-- C11, witness: 65 percent lies in the band from 60 to 79 and earns 70. -/
theorem calcXP_bands_witness : calcXP 65 = 70 :=
  (calcXP_bands.1 65).2.1 (by decide) (by decide)

/-- C12: `getRank` gives Platinum from level 10 on, Gold for 7 to 9, Silver for 4
to 6 and Bronze below, each with its own colour and icon; for the level of a
user's xp the rank is Bronze exactly when xp is below 1000 and Platinum exactly
when xp is at least 15000. -/
theorem getRank_spec :
    (∀ level : Int,
      (10 ≤ level → getRank level = ⟨"Platinum", "#8ecae6", "💠"⟩) ∧
      (7 ≤ level → level ≤ 9 → getRank level = ⟨"Gold", "#f39c12", "🥇"⟩) ∧
      (4 ≤ level → level ≤ 6 → getRank level = ⟨"Silver", "#95a5a6", "🥈"⟩) ∧
      (level < 4 → getRank level = ⟨"Bronze", "#cd7f32", "🥉"⟩)) ∧
    (∀ xp : Int, ((getRank (calcLevel xp)).name = "Bronze" ↔ xp < 1000) ∧
      ((getRank (calcLevel xp)).name = "Platinum" ↔ 15000 ≤ xp)) := by
  constructor
  · intro level
    refine ⟨?_, ?_, ?_, ?_⟩
    · intro h
      simp [getRank, h]
    · intro h1 h2
      unfold getRank
      rw [if_neg (by omega), if_pos (by omega)]
    · intro h1 h2
      unfold getRank
      rw [if_neg (by omega), if_neg (by omega), if_pos (by omega)]
    · intro h
      unfold getRank
      rw [if_neg (by omega), if_neg (by omega), if_neg (by omega)]
  · intro xp
    rw [calcLevel_eq]
    split_ifs <;> simp [getRank] <;> omega

/-- C12, witness: level 8 is Gold. -/
theorem getRank_spec_witness : getRank 8 = ⟨"Gold", "#f39c12", "🥇"⟩ :=
  (getRank_spec.1 8).2.1 (by decide) (by decide)

/-- C13: for a level from 1 to 10, `xpForCurrentLevel` is the threshold
`thresholds[level - 1]` (0 at level 1), and `xpForNextLevel` is
`thresholds[level]` up to level 9 and the top threshold 15000 at level 10. -/
theorem xpFor_level_bounds :
    (∀ k : Nat, k < 10 → xpForCurrentLevel ((k : Int) + 1) = thresholds.getD k 0) ∧
    xpForCurrentLevel 1 = 0 ∧
    (∀ k : Nat, k < 9 → xpForNextLevel ((k : Int) + 1) = thresholds.getD (k + 1) 0) ∧
    xpForNextLevel 10 = 15000 ∧ thresholds.getD 9 0 = 15000 := by
  refine ⟨?_, by decide, ?_, by decide, by decide⟩
  · intro k hk
    interval_cases k <;> decide
  · intro k hk
    interval_cases k <;> decide

/-- C13, witness: at level 4 the current bound is 1000 and the next 2000. -/
theorem xpFor_level_bounds_witness :
    xpForCurrentLevel ((3 : Nat) + 1) = thresholds.getD 3 0 ∧
    xpForNextLevel ((3 : Nat) + 1) = thresholds.getD (3 + 1) 0 :=
  ⟨xpFor_level_bounds.1 3 (by decide), xpFor_level_bounds.2.2.1 3 (by decide)⟩

/-- The level of an xp value together with the band of thresholds it lies in. -/
theorem calcLevel_cases (xp : Int) :
    (xp < 200 ∧ calcLevel xp = 1) ∨ (200 ≤ xp ∧ xp < 500 ∧ calcLevel xp = 2) ∨
    (500 ≤ xp ∧ xp < 1000 ∧ calcLevel xp = 3) ∨ (1000 ≤ xp ∧ xp < 2000 ∧ calcLevel xp = 4) ∨
    (2000 ≤ xp ∧ xp < 3500 ∧ calcLevel xp = 5) ∨ (3500 ≤ xp ∧ xp < 5500 ∧ calcLevel xp = 6) ∨
    (5500 ≤ xp ∧ xp < 8000 ∧ calcLevel xp = 7) ∨ (8000 ≤ xp ∧ xp < 11000 ∧ calcLevel xp = 8) ∨
    (11000 ≤ xp ∧ xp < 15000 ∧ calcLevel xp = 9) ∨ (15000 ≤ xp ∧ calcLevel xp = 10) := by
  rw [calcLevel_eq]
  split_ifs <;> omega

/-- C15: `calcLevel` is monotone over all integers, negative ones included, and
its value always lies from 1 to 10. -/
theorem calcLevel_mono :
    (∀ xp1 xp2 : Int, xp1 ≤ xp2 → calcLevel xp1 ≤ calcLevel xp2) ∧
    (∀ xp : Int, 1 ≤ calcLevel xp ∧ calcLevel xp ≤ 10) := by
  constructor
  · intro xp1 xp2 h
    rcases calcLevel_cases xp1 with h1 | h1 | h1 | h1 | h1 | h1 | h1 | h1 | h1 | h1 <;>
      rcases calcLevel_cases xp2 with h2 | h2 | h2 | h2 | h2 | h2 | h2 | h2 | h2 | h2 <;>
      omega
  · intro xp
    rcases calcLevel_cases xp with h1 | h1 | h1 | h1 | h1 | h1 | h1 | h1 | h1 | h1 <;> omega

/-- C15, witness: from -50 xp to 250 xp the level does not drop. -/
theorem calcLevel_mono_witness : calcLevel (-50) ≤ calcLevel 250 :=
  calcLevel_mono.1 (-50) 250 (by decide)

/-- C20: for `xp ≥ 0` and `L = calcLevel xp`, the bounds bracket xp:
`xpForCurrentLevel L ≤ xp`; below level 10 also `xp < xpForNextLevel L` and the
current bound is below the next; at level 10 both bounds are 15000. For a level
from 1 to 10 the span between the bounds is zero exactly at level 10. -/
theorem level_bounds_bracket :
    (∀ xp : Int, 0 ≤ xp →
      xpForCurrentLevel (calcLevel xp) ≤ xp ∧
      (calcLevel xp < 10 →
        xp < xpForNextLevel (calcLevel xp) ∧
        xpForCurrentLevel (calcLevel xp) < xpForNextLevel (calcLevel xp)) ∧
      (calcLevel xp = 10 →
        xpForNextLevel (calcLevel xp) = 15000 ∧ xpForCurrentLevel (calcLevel xp) = 15000)) ∧
    xpForNextLevel 10 = 15000 ∧ xpForCurrentLevel 10 = 15000 ∧
    (∀ k : Nat, k < 10 →
      (xpForNextLevel ((k : Int) + 1) - xpForCurrentLevel ((k : Int) + 1) = 0 ↔ k + 1 = 10)) := by
  refine ⟨?_, by decide, by decide, ?_⟩
  · intro xp hxp
    rw [calcLevel_eq]
    split_ifs <;>
      simp [xpForCurrentLevel, xpForNextLevel, thresholdAt, thresholds, orDefault] <;> omega
  · intro k hk
    interval_cases k <;> decide

/-- C20, witness: 750 xp lies between the bounds 500 and 1000 of level 3. -/
theorem level_bounds_bracket_witness :
    xpForCurrentLevel (calcLevel 750) ≤ 750 ∧ 750 < xpForNextLevel (calcLevel 750) ∧
    xpForCurrentLevel (calcLevel 750) < xpForNextLevel (calcLevel 750) :=
  have h := level_bounds_bracket.1 750 (by decide)
  ⟨h.1, h.2.1 (by decide)⟩

/-! ## End to end, and invariants of reachable records -/

/-- C14: for a record with xp 0, the submission of 16 out of 20 in Geography is
saved with percentage 80, earns 100 XP, brings the total to 100 at level 1 and
rank Bronze, and its badges, computed on the stored record whose history ends
with the new attempt, include `first` and `scholar`. -/
theorem postQuizHistory_first_quiz (clock : Clock) (email : String) (u : User)
    (hemail : email ≠ "") (hxp : u.xp = 0) :
    ∃ body u' a,
      postQuizHistory clock ⟨some email, some "Geography", some 16, some 20⟩ (some u) =
        (QuizReply.saved body, some u') ∧
      u'.quizHistory = u.quizHistory ++ [a] ∧ a.percentage = 80 ∧ a.xpEarned = 100 ∧
      body.xpEarned = 100 ∧ body.totalXP = 100 ∧ u'.xp = 100 ∧ body.level = 1 ∧
      body.rank = ⟨"Bronze", "#cd7f32", "🥉"⟩ ∧
      body.badges = getBadges u' ∧
      "first" ∈ body.badges.map Badge.id ∧ "scholar" ∈ body.badges.map Badge.id := by
  have hp : percentageOf 16 20 = 80 := by decide
  have hx : calcXP 80 = 100 := by decide
  have hl : calcLevel (0 + 100) = 1 := by decide
  have hg : ¬ (email = "" ∨ ("Geography" : String) = "" ∨ (20 : Int) = 0) := by
    rintro (h | h | h)
    · exact hemail h
    · exact absurd h (by decide)
    · exact absurd h (by decide)
  have hpost : postQuizHistory clock ⟨some email, some "Geography", some 16, some 20⟩ (some u) =
      (QuizReply.saved
        { xpEarned := 100, totalXP := 0 + 100, level := 1,
          streak := calcStreak clock.streakNow u.lastQuizDate u.streak,
          rank := getRank 1,
          badges := getBadges { u with
            quizHistory := u.quizHistory ++ [⟨"Geography", 16, 20, 80, 100, clock.pushNow⟩]
            xp := 0 + 100
            level := 1
            streak := calcStreak clock.streakNow u.lastQuizDate u.streak
            lastQuizDate := some clock.saveNow },
          xpForNext := xpForNextLevel 1, xpForCurrent := xpForCurrentLevel 1 },
       some { u with
          quizHistory := u.quizHistory ++ [⟨"Geography", 16, 20, 80, 100, clock.pushNow⟩]
          xp := 0 + 100
          level := 1
          streak := calcStreak clock.streakNow u.lastQuizDate u.streak
          lastQuizDate := some clock.saveNow }) := by
    simp only [postQuizHistory, if_neg hg, hp, hx, hxp, hl]
  refine ⟨_, _, ⟨"Geography", 16, 20, 80, 100, clock.pushNow⟩, hpost, rfl, rfl, rfl, rfl,
    by norm_num, by norm_num, rfl, (by decide : getRank 1 = _), rfl, ?_, ?_⟩
  · rw [(mem_getBadges_ids _).1]
    simp
  · rw [(mem_getBadges_ids _).2.2.2.1]
    exact ⟨⟨"Geography", 16, 20, 80, 100, clock.pushNow⟩, by simp, le_refl (80 : Int)⟩

/-- C14, witness: the sample user, who has xp 0. -/
theorem postQuizHistory_first_quiz_witness :
    ∃ body u' a,
      postQuizHistory sampleClock ⟨some "asha@upsc.com", some "Geography", some 16, some 20⟩
        (some sampleUser) = (QuizReply.saved body, some u') ∧
      u'.quizHistory = sampleUser.quizHistory ++ [a] ∧ a.percentage = 80 ∧ a.xpEarned = 100 ∧
      body.xpEarned = 100 ∧ body.totalXP = 100 ∧ u'.xp = 100 ∧ body.level = 1 ∧
      body.rank = ⟨"Bronze", "#cd7f32", "🥉"⟩ ∧
      body.badges = getBadges u' ∧
      "first" ∈ body.badges.map Badge.id ∧ "scholar" ∈ body.badges.map Badge.id :=
  postQuizHistory_first_quiz sampleClock "asha@upsc.com" sampleUser (by decide) (by decide)

/-- The XP award is one of the four band values. -/
theorem calcXP_mem (p : Int) :
    calcXP p = 20 ∨ calcXP p = 40 ∨ calcXP p = 70 ∨ calcXP p = 100 := by
  unfold calcXP
  split_ifs <;> simp

/-- The record a saved submission stores, read off the old record. -/
theorem postQuizHistory_stored {clock : Clock} {req : QuizRequest} {u u' : User}
    {body : QuizResult}
    (h : postQuizHistory clock req (some u) = (QuizReply.saved body, some u')) :
    ∃ a : QuizAttempt, (a.xpEarned = 20 ∨ a.xpEarned = 40 ∨ a.xpEarned = 70 ∨ a.xpEarned = 100) ∧
      u'.quizHistory = u.quizHistory ++ [a] ∧ u'.xp = u.xp + a.xpEarned ∧
      u'.streak = calcStreak clock.streakNow u.lastQuizDate u.streak ∧
      body.streak = calcStreak clock.streakNow u.lastQuizDate u.streak ∧
      u'.lastQuizDate = some clock.saveNow := by
  obtain ⟨email, subject, score, total, -, -, -, -, heq⟩ :=
    postQuizHistory_saved_inv (congrArg Prod.fst h)
  rw [h] at heq
  have hu := Option.some.inj (congrArg Prod.snd heq)
  have hb : QuizReply.saved body = _ := congrArg Prod.fst heq
  injection hb with hb
  refine ⟨⟨subject, score, total, percentageOf score total,
    calcXP (percentageOf score total), clock.pushNow⟩, calcXP_mem _, ?_, ?_, ?_, ?_, ?_⟩
  · rw [hu]
  · rw [hu]
  · rw [hu]
  · rw [hb]
  · rw [hu]

/-- C18: in every record reachable from a registration by recorded
submissions, xp is the sum of `xpEarned` over the history, every `xpEarned` is
one of 20, 40, 70, 100, and so xp lies between 20 and 100 times the number of
attempts. -/
theorem reachable_xp_eq_sum (u : User) (h : Reachable u) :
    u.xp = (u.quizHistory.map (fun a => a.xpEarned)).sum ∧
    (∀ a ∈ u.quizHistory,
      a.xpEarned = 20 ∨ a.xpEarned = 40 ∨ a.xpEarned = 70 ∨ a.xpEarned = 100) ∧
    20 * (u.quizHistory.length : Int) ≤ u.xp ∧ u.xp ≤ 100 * (u.quizHistory.length : Int) := by
  induction h with
  | register name email password createdAt =>
    simp [User.register]
  | submit clock req body _ hpost ih =>
    obtain ⟨a, ha, hhist, hxp, -, -, -⟩ := postQuizHistory_stored hpost
    obtain ⟨ih1, ih2, ih3, ih4⟩ := ih
    rw [hhist, hxp]
    refine ⟨?_, ?_, ?_, ?_⟩
    · simp [ih1]
    · intro b hb
      rcases List.mem_append.1 hb with hb | hb
      · exact ih2 b hb
      · rw [List.mem_singleton.1 hb]
        exact ha
    · simp only [List.length_append, List.length_singleton]
      push_cast
      rcases ha with ha | ha | ha | ha <;> omega
    · simp only [List.length_append, List.length_singleton]
      push_cast
      rcases ha with ha | ha | ha | ha <;> omega

/-- The sample record after its first quiz is reachable. -/
theorem reachable_sampleUser1 : Reachable sampleUser1 :=
  Reachable.submit sampleClock sampleRequest sampleBody
    (Reachable.register "Asha" "asha@upsc.com" "hash" 0) (by decide)

/-- C18, witness: the sample record after its first quiz. -/
theorem reachable_xp_eq_sum_witness :
    sampleUser1.xp = (sampleUser1.quizHistory.map (fun a => a.xpEarned)).sum ∧
    (∀ a ∈ sampleUser1.quizHistory,
      a.xpEarned = 20 ∨ a.xpEarned = 40 ∨ a.xpEarned = 70 ∨ a.xpEarned = 100) ∧
    20 * (sampleUser1.quizHistory.length : Int) ≤ sampleUser1.xp ∧
    sampleUser1.xp ≤ 100 * (sampleUser1.quizHistory.length : Int) :=
  reachable_xp_eq_sum sampleUser1 reachable_sampleUser1

/-- A streak of at least 1 behind a present `lastQuizDate` yields a new streak
of at least 1. -/
theorem one_le_calcStreak (now : Int) (last : Option Int) (s : Int)
    (h : last ≠ none → 1 ≤ s) : 1 ≤ calcStreak now last s := by
  cases last with
  | none => simp [calcStreak]
  | some l =>
    have hs := h (by simp)
    simp only [calcStreak]
    split_ifs <;> omega

/-- C19: in every reachable record a present `lastQuizDate` comes with a streak
of at least 1; so every saved submission returns a streak of at least 1, and a
streak of 0 occurs only with an empty history and no `lastQuizDate`. -/
theorem reachable_streak_pos (u : User) (h : Reachable u) :
    (u.lastQuizDate ≠ none → 1 ≤ u.streak) ∧
    (∀ (clock : Clock) (req : QuizRequest) (body : QuizResult),
      (postQuizHistory clock req (some u)).1 = QuizReply.saved body → 1 ≤ body.streak) ∧
    (u.streak = 0 → u.quizHistory = [] ∧ u.lastQuizDate = none) := by
  have hinv : (u.lastQuizDate ≠ none → 1 ≤ u.streak) ∧
      (u.lastQuizDate = none → u.quizHistory = []) := by
    induction h with
    | register name email password createdAt =>
      simp [User.register]
    | submit clock req body _ hpost ih =>
      obtain ⟨a, -, -, -, hstreak, -, hlast⟩ := postQuizHistory_stored hpost
      refine ⟨fun _ => ?_, fun hn => ?_⟩
      · rw [hstreak]
        exact one_le_calcStreak _ _ _ ih.1
      · rw [hlast] at hn
        exact absurd hn (by simp)
  refine ⟨hinv.1, ?_, ?_⟩
  · intro clock req body hb
    obtain ⟨email, subject, score, total, -, -, -, -, heq⟩ := postQuizHistory_saved_inv hb
    have hb' : QuizReply.saved body = _ := hb.symm.trans (congrArg Prod.fst heq)
    injection hb' with hb'
    rw [hb']
    exact one_le_calcStreak _ _ _ hinv.1
  · intro h0
    have hnone : u.lastQuizDate = none := by
      by_contra hne
      have := hinv.1 hne
      omega
    exact ⟨hinv.2 hnone, hnone⟩

/-- C19, witness: the sample record after its first quiz has a streak of 1,
and its second submission a day later returns a streak of at least 1. -/
theorem reachable_streak_pos_witness :
    1 ≤ sampleUser1.streak ∧
    (postQuizHistory nextDayClock sampleRequest (some sampleUser1)).1 =
      QuizReply.saved sampleBody2 ∧
    1 ≤ sampleBody2.streak :=
  have h := reachable_streak_pos sampleUser1 reachable_sampleUser1
  have hb : (postQuizHistory nextDayClock sampleRequest (some sampleUser1)).1 =
      QuizReply.saved sampleBody2 := by decide
  ⟨h.1 (by decide), hb, h.2.1 nextDayClock sampleRequest sampleBody2 hb⟩

/-! ## Which sets of badges occur -/

/-- Membership in the ids of a subset, flag by flag. -/
theorem BadgeChoice.mem_ids (c : BadgeChoice) :
    ("first" ∈ c.ids ↔ c.first = true) ∧ ("quizzer" ∈ c.ids ↔ c.quizzer = true) ∧
    ("dedicated" ∈ c.ids ↔ c.dedicated = true) ∧ ("scholar" ∈ c.ids ↔ c.scholar = true) ∧
    ("perfect" ∈ c.ids ↔ c.perfect = true) ∧ ("explorer" ∈ c.ids ↔ c.explorer = true) ∧
    ("allrounder" ∈ c.ids ↔ c.allrounder = true) ∧ ("streak3" ∈ c.ids ↔ c.streak3 = true) ∧
    ("streak7" ∈ c.ids ↔ c.streak7 = true) ∧ ("xp1k" ∈ c.ids ↔ c.xp1k = true) := by
  simp only [BadgeChoice.ids, List.mem_append, mem_ite_singleton]
  simp

/-- The history tests on the history of a subset, flag by flag; the streak and
xp flags play no part and are switched off. -/
theorem BadgeChoice.history_tests_aux
    (first quizzer dedicated scholar perfect explorer allrounder : Bool)
    (h1 : quizzer = true → first = true) (h2 : dedicated = true → quizzer = true)
    (h3 : scholar = true → first = true) (h4 : perfect = true → scholar = true)
    (h5 : explorer = true → first = true) (h6 : allrounder = true → explorer = true)
    (h7 : allrounder = true → quizzer = true) :
    decide ((BadgeChoice.mk first quizzer dedicated scholar perfect explorer allrounder
      false false false).history.length ≥ 1) = first ∧
    decide ((BadgeChoice.mk first quizzer dedicated scholar perfect explorer allrounder
      false false false).history.length ≥ 5) = quizzer ∧
    decide ((BadgeChoice.mk first quizzer dedicated scholar perfect explorer allrounder
      false false false).history.length ≥ 20) = dedicated ∧
    (BadgeChoice.mk first quizzer dedicated scholar perfect explorer allrounder
      false false false).history.any (fun h => decide (h.percentage ≥ 80)) = scholar ∧
    (BadgeChoice.mk first quizzer dedicated scholar perfect explorer allrounder
      false false false).history.any (fun h => decide (h.percentage = 100)) = perfect ∧
    decide ((distinct ((BadgeChoice.mk first quizzer dedicated scholar perfect explorer
      allrounder false false false).history.map (fun h => h.subject))).length ≥ 3) = explorer ∧
    decide ((distinct ((BadgeChoice.mk first quizzer dedicated scholar perfect explorer
      allrounder false false false).history.map (fun h => h.subject))).length ≥ 5) =
        allrounder := by
  cases first <;> cases quizzer <;> cases dedicated <;> cases scholar <;> cases perfect <;>
    cases explorer <;> cases allrounder <;>
    first
      | exact absurd (h1 rfl) (by decide)
      | exact absurd (h2 rfl) (by decide)
      | exact absurd (h3 rfl) (by decide)
      | exact absurd (h4 rfl) (by decide)
      | exact absurd (h5 rfl) (by decide)
      | exact absurd (h6 rfl) (by decide)
      | exact absurd (h7 rfl) (by decide)
      | decide

/-- The history of a closed subset passes exactly the history tests of its flags. -/
theorem BadgeChoice.history_tests (c : BadgeChoice) (hc : c.Closed) :
    decide (c.history.length ≥ 1) = c.first ∧
    decide (c.history.length ≥ 5) = c.quizzer ∧
    decide (c.history.length ≥ 20) = c.dedicated ∧
    c.history.any (fun h => decide (h.percentage ≥ 80)) = c.scholar ∧
    c.history.any (fun h => decide (h.percentage = 100)) = c.perfect ∧
    decide ((distinct (c.history.map (fun h => h.subject))).length ≥ 3) = c.explorer ∧
    decide ((distinct (c.history.map (fun h => h.subject))).length ≥ 5) = c.allrounder := by
  obtain ⟨first, quizzer, dedicated, scholar, perfect, explorer, allrounder, s3, s7, x⟩ := c
  obtain ⟨h1, h2, h3, h4, h5, h6, h7, -⟩ := hc
  exact BadgeChoice.history_tests_aux first quizzer dedicated scholar perfect explorer
    allrounder h1 h2 h3 h4 h5 h6 h7


/-- The user built for a closed subset holds exactly its badges. -/
theorem BadgeChoice.ids_user (c : BadgeChoice) (hc : c.Closed) :
    (getBadges c.user).map Badge.id = c.ids := by
  obtain ⟨t1, t2, t3, t4, t5, t6, t7⟩ := c.history_tests hc
  have hs3 : decide (c.user.streak ≥ 3) = c.streak3 := by
    have h8 := hc.2.2.2.2.2.2.2
    show decide ((if c.streak7 = true then (7 : Int) else if c.streak3 = true then 3 else 0) ≥ 3) =
      c.streak3
    cases h3 : c.streak3 <;> cases h7 : c.streak7 <;> simp_all
  have hs7 : decide (c.user.streak ≥ 7) = c.streak7 := by
    show decide ((if c.streak7 = true then (7 : Int) else if c.streak3 = true then 3 else 0) ≥ 7) =
      c.streak7
    cases h3 : c.streak3 <;> cases h7 : c.streak7 <;> simp
  have hx : decide (c.user.xp ≥ 1000) = c.xp1k := by
    show decide ((if c.xp1k = true then (1000 : Int) else 0) ≥ 1000) = c.xp1k
    cases h : c.xp1k <;> simp
  have hh : c.user.quizHistory = c.history := rfl
  rw [getBadges_ids_eq, hh, t1, t2, t3, t4, t5, t6, t7, hs3, hs7, hx]
  rfl

/-- A subset that some user holds is closed under the implications among the
rules. -/
theorem BadgeChoice.closed_of_ids (c : BadgeChoice) (u : User)
    (h : (getBadges u).map Badge.id = c.ids) : c.Closed := by
  obtain ⟨m1, m2, m3, m4, m5, m6, m7, m8, m9, -⟩ := mem_getBadges_ids u
  obtain ⟨c1, c2, c3, c4, c5, c6, c7, c8, c9, -⟩ := c.mem_ids
  rw [h] at m1 m2 m3 m4 m5 m6 m7 m8 m9
  have hcard : (u.quizHistory.map (fun a => a.subject)).toFinset.card ≤ u.quizHistory.length := by
    have := List.toFinset_card_le (u.quizHistory.map (fun a => a.subject))
    simpa using this
  refine ⟨fun hq => ?_, fun hd => ?_, fun hs => ?_, fun hp => ?_, fun he => ?_, fun ha => ?_,
    fun ha => ?_, fun h7 => ?_⟩
  · have := m2.1 (c2.2 hq)
    exact c1.1 (m1.2 (by omega))
  · have := m3.1 (c3.2 hd)
    exact c2.1 (m2.2 (by omega))
  · obtain ⟨a, ha, -⟩ := m4.1 (c4.2 hs)
    have : 0 < u.quizHistory.length := List.length_pos_of_mem ha
    exact c1.1 (m1.2 (by omega))
  · obtain ⟨a, ha, hpa⟩ := m5.1 (c5.2 hp)
    exact c4.1 (m4.2 ⟨a, ha, by omega⟩)
  · have := m6.1 (c6.2 he)
    exact c1.1 (m1.2 (by omega))
  · have := m7.1 (c7.2 ha)
    exact c6.1 (m6.2 (by omega))
  · have := m7.1 (c7.2 ha)
    exact c2.1 (m2.2 (by omega))
  · have := m9.1 (c9.2 h7)
    exact c8.1 (m8.2 (by omega))

/-- C17 (as amended): a subset of the ten badge ids is the set of badges of
some user exactly when it is closed under the implications among the rules:
quizzer needs first, dedicated needs quizzer, scholar needs first, perfect needs
scholar, explorer needs first, allrounder needs explorer and quizzer, streak7
needs streak3. -/
theorem getBadges_sets (c : BadgeChoice) :
    (∃ u : User, (getBadges u).map Badge.id = c.ids) ↔ c.Closed :=
  ⟨fun ⟨u, h⟩ => c.closed_of_ids u h, fun hc => ⟨c.user, c.ids_user hc⟩⟩

/-- C17, witness: some user holds exactly first, scholar and streak3. -/
theorem getBadges_sets_witness :
    ∃ u : User, (getBadges u).map Badge.id = ["first", "scholar", "streak3"] :=
  (getBadges_sets ⟨true, false, false, true, false, false, false, true, false, false⟩).2
    (by simp [BadgeChoice.Closed])

/-- C17, counterexample: no user holds the subset that consists of quizzer
alone; five attempts always bring first along. -/
theorem getBadges_never_quizzer_alone :
    (BadgeChoice.mk false true false false false false false false false false).ids =
      ["quizzer"] ∧
    ¬ ∃ u : User, (getBadges u).map Badge.id = ["quizzer"] := by
  refine ⟨rfl, ?_⟩
  rintro ⟨u, h⟩
  have hc := BadgeChoice.closed_of_ids
    (BadgeChoice.mk false true false false false false false false false false) u h
  exact absurd (hc.1 rfl) (by decide)

/-! ## Two submissions for one user: runs and races -/

/-- A request with four usable fields is saved for whatever record is found. -/
theorem postQuizHistory_valid (clock : Clock) (email subject : String) (score total : Int)
    (v : User) (he : email ≠ "") (hs : subject ≠ "") (ht : total ≠ 0) :
    postQuizHistory clock ⟨some email, some subject, some score, some total⟩ (some v) =
      (QuizReply.saved
        { xpEarned := calcXP (percentageOf score total),
          totalXP := v.xp + calcXP (percentageOf score total),
          level := calcLevel (v.xp + calcXP (percentageOf score total)),
          streak := calcStreak clock.streakNow v.lastQuizDate v.streak,
          rank := getRank (calcLevel (v.xp + calcXP (percentageOf score total))),
          badges := getBadges { v with
            quizHistory := v.quizHistory ++
              [⟨subject, score, total, percentageOf score total,
                calcXP (percentageOf score total), clock.pushNow⟩]
            xp := v.xp + calcXP (percentageOf score total)
            level := calcLevel (v.xp + calcXP (percentageOf score total))
            streak := calcStreak clock.streakNow v.lastQuizDate v.streak
            lastQuizDate := some clock.saveNow },
          xpForNext := xpForNextLevel (calcLevel (v.xp + calcXP (percentageOf score total))),
          xpForCurrent :=
            xpForCurrentLevel (calcLevel (v.xp + calcXP (percentageOf score total))) },
       some { v with
          quizHistory := v.quizHistory ++
            [⟨subject, score, total, percentageOf score total,
              calcXP (percentageOf score total), clock.pushNow⟩]
          xp := v.xp + calcXP (percentageOf score total)
          level := calcLevel (v.xp + calcXP (percentageOf score total))
          streak := calcStreak clock.streakNow v.lastQuizDate v.streak
          lastQuizDate := some clock.saveNow }) := by
  have hg : ¬ (email = "" ∨ subject = "" ∨ total = 0) := by
    rintro (h | h | h)
    · exact he h
    · exact hs h
    · exact ht h
  simp only [postQuizHistory, if_neg hg]

/-- A save that follows its own read directly leaves the document as the
handler holds it: the second component of `postQuizHistory`. -/
theorem saveUser_own_read (v : User) (a : QuizAttempt) (xp level streak : Int)
    (last : Option Int) :
    saveUser v v
      { v with
        quizHistory := v.quizHistory ++ [a]
        xp := xp
        level := level
        streak := streak
        lastQuizDate := last } =
      { v with
        quizHistory := v.quizHistory ++ [a]
        xp := xp
        level := level
        streak := streak
        lastQuizDate := last } := by
  simp only [saveUser, List.drop_left, ite_eq_right_iff]
  congr 1 <;> split_ifs with h <;> first | rfl | exact h.symm

/-- One run alone, read then write, stores what the handler reports as
stored. -/
theorem race_single_run (a b : Submission) (u u' : User) (body : QuizResult)
    (h : postQuizHistory a.clock a.req (some u) = (QuizReply.saved body, some u')) :
    race a b u [RaceStep.readA, RaceStep.writeA] = u' := by
  obtain ⟨email, subject, score, total, -, -, -, -, heq⟩ :=
    postQuizHistory_saved_inv (congrArg Prod.fst h)
  have hu : u' = _ := Option.some.inj (congrArg Prod.snd (h.symm.trans heq))
  simp only [race, List.foldl, Race.step, Race.write, heq]
  rw [hu]
  exact saveUser_own_read u _ _ _ _ _

/-- The write of an accepted run appends its attempt to the stored history,
whatever was stored meanwhile, and sets xp to the loaded xp plus its award. -/
theorem Race.write_valid (clock : Clock) (email subject : String) (score total : Int)
    (store loaded : User) (he : email ≠ "") (hs : subject ≠ "") (ht : total ≠ 0) :
    (Race.write ⟨clock, ⟨some email, some subject, some score, some total⟩⟩ store
      (some loaded)).quizHistory =
      store.quizHistory ++ [⟨subject, score, total, percentageOf score total,
        calcXP (percentageOf score total), clock.pushNow⟩] ∧
    (Race.write ⟨clock, ⟨some email, some subject, some score, some total⟩⟩ store
      (some loaded)).xp = loaded.xp + calcXP (percentageOf score total) := by
  have hpos : loaded.xp + calcXP (percentageOf score total) ≠ loaded.xp := by
    rcases calcXP_mem (percentageOf score total) with h | h | h | h <;> omega
  simp only [Race.write, postQuizHistory_valid clock email subject score total loaded he hs ht,
    saveUser, List.drop_left, if_neg hpos]
  simp


/-- C16 (as amended): for two accepted submissions for one user, in each of the
six orders in which their reads and writes can fall, the final record holds both
attempts behind the earlier ones, in the order of the two saves. Its xp is the
initial xp plus both awards when the runs follow one another; when both reads
come before both saves it is the initial xp plus the award of the later save
alone. -/
theorem race_outcome (a b : Submission) (u : User) (bodyA bodyB : QuizResult)
    (hA : (postQuizHistory a.clock a.req (some u)).1 = QuizReply.saved bodyA)
    (hB : (postQuizHistory b.clock b.req (some u)).1 = QuizReply.saved bodyB) :
    ∃ attA attB : QuizAttempt,
      attA.xpEarned = bodyA.xpEarned ∧ attB.xpEarned = bodyB.xpEarned ∧
      (∀ schedule ∈ interleavings,
        (race a b u schedule).quizHistory =
          u.quizHistory ++
            (if schedule.indexOf RaceStep.writeA < schedule.indexOf RaceStep.writeB
              then [attA, attB] else [attB, attA])) ∧
      (race a b u [RaceStep.readA, RaceStep.writeA, RaceStep.readB, RaceStep.writeB]).xp =
        u.xp + bodyA.xpEarned + bodyB.xpEarned ∧
      (race a b u [RaceStep.readB, RaceStep.writeB, RaceStep.readA, RaceStep.writeA]).xp =
        u.xp + bodyA.xpEarned + bodyB.xpEarned ∧
      (race a b u [RaceStep.readA, RaceStep.readB, RaceStep.writeA, RaceStep.writeB]).xp =
        u.xp + bodyB.xpEarned ∧
      (race a b u [RaceStep.readB, RaceStep.readA, RaceStep.writeA, RaceStep.writeB]).xp =
        u.xp + bodyB.xpEarned ∧
      (race a b u [RaceStep.readA, RaceStep.readB, RaceStep.writeB, RaceStep.writeA]).xp =
        u.xp + bodyA.xpEarned ∧
      (race a b u [RaceStep.readB, RaceStep.readA, RaceStep.writeB, RaceStep.writeA]).xp =
        u.xp + bodyA.xpEarned := by
  obtain ⟨clockA, reqA⟩ := a
  obtain ⟨clockB, reqB⟩ := b
  obtain ⟨eA, sA, scA, tA, hreqA, heA, hsA, htA, heqA⟩ := postQuizHistory_saved_inv hA
  obtain ⟨eB, sB, scB, tB, hreqB, heB, hsB, htB, heqB⟩ := postQuizHistory_saved_inv hB
  have hbA : QuizReply.saved bodyA = _ := hA.symm.trans (congrArg Prod.fst heqA)
  have hbB : QuizReply.saved bodyB = _ := hB.symm.trans (congrArg Prod.fst heqB)
  injection hbA with hbA
  injection hbB with hbB
  simp only at hreqA hreqB
  subst hreqA hreqB
  have hxA : bodyA.xpEarned = calcXP (percentageOf scA tA) := by rw [hbA]
  have hxB : bodyB.xpEarned = calcXP (percentageOf scB tB) := by rw [hbB]
  have wA := fun store loaded =>
    Race.write_valid clockA eA sA scA tA store loaded heA hsA htA
  have wB := fun store loaded =>
    Race.write_valid clockB eB sB scB tB store loaded heB hsB htB
  refine ⟨⟨sA, scA, tA, percentageOf scA tA, calcXP (percentageOf scA tA), clockA.pushNow⟩,
    ⟨sB, scB, tB, percentageOf scB tB, calcXP (percentageOf scB tB), clockB.pushNow⟩,
    hxA.symm, hxB.symm, ?_, ?_, ?_, ?_, ?_, ?_, ?_⟩
  · intro schedule hmem
    simp only [interleavings, List.mem_cons, List.mem_singleton, List.not_mem_nil,
      or_false] at hmem
    rcases hmem with rfl | rfl | rfl | rfl | rfl | rfl
    · rw [if_pos (by decide)]
      simp only [race, List.foldl, Race.step]
      rw [(wB _ _).1, (wA _ _).1]
      simp
    · rw [if_pos (by decide)]
      simp only [race, List.foldl, Race.step]
      rw [(wB _ _).1, (wA _ _).1]
      simp
    · rw [if_neg (by decide)]
      simp only [race, List.foldl, Race.step]
      rw [(wA _ _).1, (wB _ _).1]
      simp
    · rw [if_pos (by decide)]
      simp only [race, List.foldl, Race.step]
      rw [(wB _ _).1, (wA _ _).1]
      simp
    · rw [if_neg (by decide)]
      simp only [race, List.foldl, Race.step]
      rw [(wA _ _).1, (wB _ _).1]
      simp
    · rw [if_neg (by decide)]
      simp only [race, List.foldl, Race.step]
      rw [(wA _ _).1, (wB _ _).1]
      simp
  · simp only [race, List.foldl, Race.step]
    rw [(wB _ _).2, (wA _ _).2, hxA, hxB]
  · simp only [race, List.foldl, Race.step]
    rw [(wA _ _).2, (wB _ _).2, hxA, hxB]
    ring
  · simp only [race, List.foldl, Race.step]
    rw [(wB _ _).2, hxB]
  · simp only [race, List.foldl, Race.step]
    rw [(wB _ _).2, hxB]
  · simp only [race, List.foldl, Race.step]
    rw [(wA _ _).2, hxA]
  · simp only [race, List.foldl, Race.step]
    rw [(wA _ _).2, hxA]

/-- C16, witness: the two sample submissions. Run one after the other they
leave both attempts and 140 xp; with both reads first they leave both attempts
and the 40 xp of the later save. -/
theorem race_outcome_witness :
    ∃ attA attB : QuizAttempt,
      attA.xpEarned = 100 ∧ attB.xpEarned = 40 ∧
      (race sampleSubmission sampleSubmissionB sampleUser
        [RaceStep.readA, RaceStep.writeA, RaceStep.readB, RaceStep.writeB]).quizHistory =
        sampleUser.quizHistory ++ [attA, attB] ∧
      (race sampleSubmission sampleSubmissionB sampleUser
        [RaceStep.readA, RaceStep.writeA, RaceStep.readB, RaceStep.writeB]).xp =
        sampleUser.xp + 100 + 40 ∧
      (race sampleSubmission sampleSubmissionB sampleUser
        [RaceStep.readA, RaceStep.readB, RaceStep.writeA, RaceStep.writeB]).xp =
        sampleUser.xp + 40 := by
  obtain ⟨attA, attB, h1, h2, h3, h4, -, h6, -⟩ :=
    race_outcome sampleSubmission sampleSubmissionB sampleUser sampleBody sampleBodyB
      (by decide) (by decide)
  have hs := h3 [RaceStep.readA, RaceStep.writeA, RaceStep.readB, RaceStep.writeB]
    (by decide)
  rw [if_pos (by decide)] at hs
  exact ⟨attA, attB, h1, h2, hs, h4, h6⟩

/-- C16, counterexample: both runs read the fresh record before either saves.
Each reply reports its own award, 100 and 40, and both attempts are stored, but
the later save sets xp from the copy it loaded: the final xp is 40, not 140. -/
theorem race_lost_update :
    [RaceStep.readA, RaceStep.readB, RaceStep.writeA, RaceStep.writeB] ∈ interleavings ∧
    (postQuizHistory sampleSubmission.clock sampleSubmission.req (some sampleUser)).1 =
      QuizReply.saved sampleBody ∧ sampleBody.xpEarned = 100 ∧
    (postQuizHistory sampleSubmissionB.clock sampleSubmissionB.req (some sampleUser)).1 =
      QuizReply.saved sampleBodyB ∧ sampleBodyB.xpEarned = 40 ∧
    (race sampleSubmission sampleSubmissionB sampleUser
      [RaceStep.readA, RaceStep.readB, RaceStep.writeA, RaceStep.writeB]).quizHistory =
      [⟨"Geography", 16, 20, 80, 100, 1000⟩, ⟨"History", 10, 20, 50, 40, 2000⟩] ∧
    (race sampleSubmission sampleSubmissionB sampleUser
      [RaceStep.readA, RaceStep.readB, RaceStep.writeA, RaceStep.writeB]).xp = 40 ∧
    sampleUser.xp + 100 + 40 = 140 := by
  decide

/-- A save leaves alone the paths its run did not change: from 100 xp at level
1, the first save stores 200 xp and level 2; the second run, which loaded level
1 and computes level 1 for its 140 xp, sets xp only, and level 2 stays. -/
theorem race_stale_level :
    (race sampleSubmission sampleSubmissionB seededUser
      [RaceStep.readA, RaceStep.readB, RaceStep.writeA, RaceStep.writeB]).xp = 140 ∧
    (race sampleSubmission sampleSubmissionB seededUser
      [RaceStep.readA, RaceStep.readB, RaceStep.writeA, RaceStep.writeB]).level = 2 ∧
    calcLevel 140 = 1 := by
  decide


/-! ## Elapsed days and subject labels: sample evaluations -/

/-- The day count is one of elapsed 24-hour periods, not of calendar dates: a
quiz at 00:30 UTC on 2 March 2026, one hour after the last one at 23:30 on 1
March, leaves a streak of 3 unchanged; a quiz at 01:00 on 3 March, 26 hours
after the last one at 23:00 on 1 March, raises it to 4 although no quiz was
taken on 2 March. -/
theorem calcStreak_elapsed_hours :
    calcStreak 1772411400000 (some 1772407800000) 3 = 3 ∧
    calcStreak 1772499600000 (some 1772406000000) 3 = 4 := by
  decide

/-- The badge `allrounder` counts distinct subject strings, whichever they are:
a history over Geography, geography, History, Polity and Art earns it without
Economics or Science. -/
theorem getBadges_allrounder_any_five :
    "allrounder" ∈ (getBadges { sampleUser with
      quizHistory :=
        [⟨"Geography", 10, 20, 50, 40, 1⟩, ⟨"geography", 10, 20, 50, 40, 2⟩,
         ⟨"History", 10, 20, 50, 40, 3⟩, ⟨"Polity", 10, 20, 50, 40, 4⟩,
         ⟨"Art", 10, 20, 50, 40, 5⟩]
      xp := 200, level := 2, streak := 1, lastQuizDate := some 5 }).map Badge.id := by
  decide

end PrepHub
